import Mathlib

/-!
Verification of the lazy-rag multi-stage retrieval workflow engine.

The repository has two variants of the engine:
* `framework` — shallow embedding of `src/lazy_rag/framework.py`
  (doc-id forwarding variant: `Workflow.run`, `_gather_doc_ids`).
* `multi_stage_search` — shallow embedding of
  `src/lazy_rag/framework/multi_stage_search.py`
  (entry-forwarding variant: `Workflow.search`,
  `_gather_entries_from_previous_nodes`).

Python dictionaries are modelled as association lists with Python's
insertion-order semantics (`dictGet`, `dictSet`).  Scores (`float` in the
source) are modelled as rationals; all score arithmetic appearing in the
claims is exact.  Back-ends are external collaborators specified at their
interface boundary (spec §4.2): a back-end instance carries its declarative
config (its `model_dump`), and its query behaviour is an oracle parameter
(`SearchEnv`).  Python object identity (`is`) is modelled by an `id` field.
-/

/-- First value stored under key `k` in an insertion-ordered assoc list
(Python `d.get(k)` / `d[k]`). -/
def dictGet {α : Type} (d : List (String × α)) (k : String) : Option α :=
  (d.find? (fun p => decide (p.1 = k))).map (fun p => p.2)

/-- Python `d[k] = v`: overwrite in place when the key exists (keeping its
position), else append at the end. -/
def dictSet {α : Type} (d : List (String × α)) (k : String) (v : α) : List (String × α) :=
  if d.any (fun p => decide (p.1 = k)) then
    d.map (fun p => if p.1 = k then (k, v) else p)
  else
    d ++ [(k, v)]

namespace framework

/-- `ServerConfig` TypedDict of framework.py: `{type, name, extra?}`.
`extra` is opaque back-end specific data. -/
structure ServerConfig where
  type : String
  name : String
  extra : Option String
deriving DecidableEq

/-- `SearchHit` dataclass: `{doc_id, score}`; `score : float` modelled as ℚ. -/
structure SearchHit where
  doc_id : String
  score : ℚ
deriving DecidableEq

/-- Payload of a logged `ServerAction.detail` dict.  The `ensure` branch
logs `{from_nodes, count}`; the `search` branch logs
`{query, topk, candidates}` (candidates count, `none` when no candidates
were passed). -/
inductive ActionDetail where
  | ensureDetail (from_nodes : List String) (count : Nat)
  | searchDetail (query : String) (topk : Int) (candidates : Option Nat)
deriving DecidableEq

/-- `ServerAction` dataclass: `{node, server, op, detail}`. -/
structure ServerAction where
  node : String
  server : String
  op : String
  detail : ActionDetail
deriving DecidableEq

/-- A back-end (`SearchServer` protocol).  Per the capability contract
(spec §4.2) it is specified by its declarative config: `name`/`type` are
read from the config and `model_dump` returns it. -/
structure SearchServer where
  config : ServerConfig
deriving DecidableEq

def SearchServer.name (s : SearchServer) : String := s.config.name

def SearchServer.stype (s : SearchServer) : String := s.config.type

def SearchServer.model_dump (s : SearchServer) : ServerConfig := s.config

/-- `SearchNodeCfg` dataclass (the `type="search"` discriminant is the
constant `"search"` and is left implicit). -/
structure SearchNodeCfg where
  name : String
  server : Option SearchServer
  query : String
  topk : Int
  from_nodes : List String
deriving DecidableEq

/-- Serialized node form (`SearchNodeConfig` TypedDict); `topk` and
`from_nodes` are `NotRequired`, hence `Option`. -/
structure SearchNodeConfig where
  name : String
  server : ServerConfig
  query : String
  topk : Option Int
  from_nodes : Option (List String)
deriving DecidableEq

/-- Serialized workflow form (`WorkflowConfig` TypedDict); the `type`
field carries the `"workflow"` discriminant checked on load. -/
structure WorkflowConfig where
  type : String
  nodes : List SearchNodeConfig
deriving DecidableEq

/-- `SearchNodeCfg.model_dump`; raises (`Except.error`) when `server` is
`None`. -/
def SearchNodeCfg.model_dump (n : SearchNodeCfg) : Except String SearchNodeConfig :=
  match n.server with
  | none => .error "server is None in node dump"
  | some s => .ok ⟨n.name, s.model_dump, n.query, some n.topk, some n.from_nodes⟩

/-- The global `ServerRegistry` is modelled by the set of registered type
tags; resolving a registered tag yields the faithful back-end class of the
capability contract, whose `load_from_config` reconstructs the instance
carrying that config. -/
def registryLoadServer (registry : List String) (cfg : ServerConfig) :
    Except String SearchServer :=
  if cfg.type ∈ registry then .ok ⟨cfg⟩
  else .error ("unregistered server type: " ++ cfg.type)

/-- `SearchNodeCfg.load_from_config`: resolve the server through the
registry, apply the `topk`/`from_nodes` defaults.  The `isinstance`
checks of the source are identically true in the typed embedding. -/
def SearchNodeCfg.load_from_config (registry : List String)
    (config : SearchNodeConfig) : Except String SearchNodeCfg :=
  match registryLoadServer registry config.server with
  | .error e => .error e
  | .ok server =>
      .ok ⟨config.name, some server, config.query,
           config.topk.getD 10, config.from_nodes.getD []⟩

/-- `NodeOutput` dataclass: `{name, hits}`. -/
structure NodeOutput where
  name : String
  hits : List SearchHit
deriving DecidableEq

/-- A call the engine makes on a back-end (the side-effecting interface of
spec §4.2), recorded as an interaction trace. -/
inductive ServerCall where
  | ensureCall (server : ServerConfig) (doc_ids : List String) (from_nodes : List String)
  | searchCall (server : ServerConfig) (query : String)
      (candidates : Option (List String)) (topk : Int)
deriving DecidableEq

/-- Oracle for back-end query behaviour: hits returned by
`server.search(query, candidates=..., topk=...)`. -/
def SearchEnv : Type :=
  ServerConfig → String → Option (List String) → Int → List SearchHit

/-- `Workflow` object state: node list, `_outputs` dict, persistent
`self.log` action list (created in `__init__`, never cleared). -/
structure Workflow where
  nodes : List SearchNodeCfg
  outputs : List (String × NodeOutput)
  log : List ServerAction
deriving DecidableEq

/-- `Workflow.__init__`. -/
def Workflow.init : Workflow := ⟨[], [], []⟩

/-- `Workflow.add`: `name = node_name or server.name` (Python truthiness:
`None` and `""` both fall back to the server name); appends the node
config, with no duplicate-name check. -/
def Workflow.add (wf : Workflow) (server : SearchServer)
    (node_name : Option String) (query : String) (topk : Int)
    (from_nodes : List String) : Workflow :=
  let name :=
    match node_name with
    | none => server.name
    | some s => if s = "" then server.name else s
  ⟨wf.nodes ++ [⟨name, some server, query, topk, from_nodes⟩], wf.outputs, wf.log⟩

/-- `Workflow._gather_doc_ids` inner loop over one output's hits:
first-occurrence de-duplication against the accumulated ordered list
(`seen` always equals the set of elements of `ordered`). -/
def gatherHits (acc : List String) : List SearchHit → List String
  | [] => acc
  | h :: hs =>
      if h.doc_id ∈ acc then gatherHits acc hs
      else gatherHits (acc ++ [h.doc_id]) hs

/-- `Workflow._gather_doc_ids` loop over `node_names`: a name with no
stored output is skipped (`if not out: continue`). -/
def gatherNames (outputs : List (String × NodeOutput)) (acc : List String) :
    List String → List String
  | [] => acc
  | nm :: rest =>
      match dictGet outputs nm with
      | none => gatherNames outputs acc rest
      | some out => gatherNames outputs (gatherHits acc out.hits) rest

/-- `Workflow._gather_doc_ids`. -/
def Workflow.gather_doc_ids (outputs : List (String × NodeOutput))
    (node_names : List String) : List String :=
  gatherNames outputs [] node_names

/-- `Workflow._exec_search`: gather upstream ids when `from_nodes` is
non-empty; when the gathered list is non-empty call `ensure` and log an
`op="ensure"` action, and pass the ids as candidates; then call `search`
and log an `op="search"` action.  Returns the produced `NodeOutput`, the
actions appended to the log, and the back-end calls made. -/
def Workflow.exec_search (env : SearchEnv) (outputs : List (String × NodeOutput))
    (cfg : SearchNodeCfg) :
    Except String (NodeOutput × List ServerAction × List ServerCall) :=
  match cfg.server with
  | none => .error "server is None"
  | some srv =>
    let gathered :
        Option (List String) × List ServerAction × List ServerCall :=
      if cfg.from_nodes ≠ [] then
        let mat_ids := Workflow.gather_doc_ids outputs cfg.from_nodes
        if mat_ids ≠ [] then
          (some mat_ids,
           [⟨cfg.name, srv.name, "ensure",
             .ensureDetail cfg.from_nodes mat_ids.length⟩],
           [.ensureCall srv.config mat_ids cfg.from_nodes])
        else (none, [], [])
      else (none, [], [])
    let candidates_list := gathered.1
    let hits := env srv.config cfg.query candidates_list cfg.topk
    .ok (⟨cfg.name, hits⟩,
         gathered.2.1 ++
           [⟨cfg.name, srv.name, "search",
             .searchDetail cfg.query cfg.topk (candidates_list.map List.length)⟩],
         gathered.2.2 ++
           [.searchCall srv.config cfg.query candidates_list cfg.topk])

/-- The `for cfg in self._nodes` loop of `Workflow.run`, threading the
`_outputs` dict and accumulating appended actions and back-end calls.
The `cfg.type == "search"` dispatch is total here because the variant has
a single node kind. -/
def runNodes (env : SearchEnv) (outputs : List (String × NodeOutput))
    (acts : List ServerAction) (calls : List ServerCall) :
    List SearchNodeCfg →
    Except String (List (String × NodeOutput) × List ServerAction × List ServerCall)
  | [] => .ok (outputs, acts, calls)
  | cfg :: rest =>
      match Workflow.exec_search env outputs cfg with
      | .error e => .error e
      | .ok (out, a, c) =>
          runNodes env (dictSet outputs out.name out) (acts ++ a) (calls ++ c) rest

/-- `Workflow.run`: clears `self._outputs`, executes the nodes in order,
stores each output under its node name, returns `dict(self._outputs)`.
`self.log` is appended to, never cleared.  The result is the updated
workflow object, the returned outputs dict, and the back-end call trace. -/
def Workflow.run (env : SearchEnv) (wf : Workflow) :
    Except String (Workflow × List (String × NodeOutput) × List ServerCall) :=
  match runNodes env [] [] [] wf.nodes with
  | .error e => .error e
  | .ok (outputs, acts, calls) =>
      .ok (⟨wf.nodes, outputs, wf.log ++ acts⟩, outputs, calls)

/-- The list comprehension `[n.model_dump() for n in self._nodes]`:
element-wise, the first raise propagates. -/
def dumpNodes : List SearchNodeCfg → Except String (List SearchNodeConfig)
  | [] => .ok []
  | n :: rest =>
      match n.model_dump with
      | .error e => .error e
      | .ok nc =>
          match dumpNodes rest with
          | .error e => .error e
          | .ok rest2 => .ok (nc :: rest2)

/-- `Workflow.model_dump`: `{type: "workflow", nodes: [...]}`; fails when
some node's server is `None`. -/
def Workflow.model_dump (wf : Workflow) : Except String WorkflowConfig :=
  match dumpNodes wf.nodes with
  | .error e => .error e
  | .ok nds => .ok ⟨"workflow", nds⟩

/-- The `for nd in nodes` loop of `Workflow.load_from_config`: each node
is rebuilt through `SearchNodeCfg.load_from_config`, the first raise
propagating. -/
def loadNodeCfgs (registry : List String) :
    List SearchNodeConfig → Except String (List SearchNodeCfg)
  | [] => .ok []
  | nc :: rest =>
      match SearchNodeCfg.load_from_config registry nc with
      | .error e => .error e
      | .ok n =>
          match loadNodeCfgs registry rest with
          | .error e => .error e
          | .ok rest2 => .ok (n :: rest2)

/-- `Workflow.load_from_config`: checks the `"workflow"` discriminant and
rebuilds each node through `SearchNodeCfg.load_from_config`; the rebuilt
workflow has fresh (empty) outputs and log. -/
def Workflow.load_from_config (registry : List String) (config : WorkflowConfig) :
    Except String Workflow :=
  if config.type ≠ "workflow" then
    .error "config.type must be workflow"
  else
    match loadNodeCfgs registry config.nodes with
    | .error e => .error e
    | .ok nds => .ok ⟨nds, [], []⟩

end framework

namespace multi_stage_search

/-- Opaque per-server payload dict (`dict[str, object]`). -/
def Payload : Type := List (String × String)

instance : DecidableEq Payload := by
  unfold Payload
  infer_instance

/-- `ServerConfig` TypedDict of multi_stage_search.py. -/
structure ServerConfig where
  type : String
  name : String
  extra : Option String
deriving DecidableEq

/-- `SearchHit` dataclass: `{doc_id, score, payload}`. -/
structure SearchHit where
  doc_id : String
  score : ℚ
  payload : Payload
deriving DecidableEq

/-- `Entry` TypedDict: `{source_server, source_id, payload}`. -/
structure Entry where
  source_server : String
  source_id : String
  payload : Payload
deriving DecidableEq

/-- Payload of a logged `ServerAction.detail` dict.  The ingestion branch
logs `{from_nodes, count}`; the search branch logs `{query, topk}`. -/
inductive ActionDetail where
  | addEntriesDetail (from_nodes : List String) (count : Nat)
  | searchDetail (query : String) (topk : Int)
deriving DecidableEq

/-- `ServerAction` dataclass: `{node, server_name, op, detail}`. -/
structure ServerAction where
  node : String
  server_name : String
  op : String
  detail : ActionDetail
deriving DecidableEq

/-- A back-end (`SearchServer` protocol).  `id` models Python object
identity (`is`); the declarative state is the config, per the capability
contract. -/
structure SearchServer where
  id : Nat
  config : ServerConfig
deriving DecidableEq

def SearchServer.name (s : SearchServer) : String := s.config.name

def SearchServer.model_dump (s : SearchServer) : ServerConfig := s.config

/-- `SearchNode` dataclass. -/
structure SearchNode where
  name : String
  server_name : String
  topk : Int
  from_nodes : List String
deriving DecidableEq

/-- Serialized node form (`SearchNodeConfig` TypedDict); `topk` and
`from_nodes` are `NotRequired`. -/
structure SearchNodeConfig where
  name : String
  server_name : String
  topk : Option Int
  from_nodes : Option (List String)
deriving DecidableEq

/-- `WorkflowConfig` TypedDict: `{servers, nodes}`. -/
structure WorkflowConfig where
  servers : List ServerConfig
  nodes : List SearchNodeConfig
deriving DecidableEq

/-- `SearchNode.model_dump`. -/
def SearchNode.model_dump (n : SearchNode) : SearchNodeConfig :=
  ⟨n.name, n.server_name, some n.topk, some n.from_nodes⟩

/-- `SearchNode.load_from_config`: apply the `topk`/`from_nodes`
defaults; the `isinstance` checks are identically true in the typed
embedding. -/
def SearchNode.load_from_config (config : SearchNodeConfig) : SearchNode :=
  ⟨config.name, config.server_name, config.topk.getD 10, config.from_nodes.getD []⟩

/-- `NodeOutput` dataclass: `{node_name, server_name, hits}`. -/
structure NodeOutput where
  node_name : String
  server_name : String
  hits : List SearchHit
deriving DecidableEq

/-- A call the engine makes on a back-end, recorded as an interaction
trace. -/
inductive ServerCall where
  | addEntriesCall (server : ServerConfig) (entries : List Entry)
  | searchCall (server : ServerConfig) (query : String) (topk : Int)
deriving DecidableEq

/-- Oracle for back-end query behaviour: hits returned by
`server.search(query, topk=...)`. -/
def SearchEnv : Type := ServerConfig → String → Int → List SearchHit

/-- `Workflow` object state: `_servers` dict and `_nodes` list.  There is
no persistent outputs store or log: `search` creates them per invocation. -/
structure Workflow where
  servers : List (String × SearchServer)
  nodes : List SearchNode
deriving DecidableEq

/-- `Workflow.__init__`. -/
def Workflow.init : Workflow := ⟨[], []⟩

/-- `Workflow.add`.  Python raises propagate after `self._servers` was
already assigned, so the error case carries the object state observable
after the exception: the duplicate-server check happens before any
mutation, while the duplicate-node-name assertion fires after the server
map was updated and before the node is appended. -/
def Workflow.add (wf : Workflow) (server : SearchServer) (node_name : String)
    (from_nodes : List String) (topk : Int) : Except (String × Workflow) Workflow :=
  let clash : Bool :=
    match dictGet wf.servers server.name with
    | some existing => decide (existing.id ≠ server.id)
    | none => false
  if clash then
    .error ("duplicate server name: " ++ server.name, wf)
  else
    let servers := dictSet wf.servers server.name server
    let name := if node_name = "" then server.name else node_name
    if wf.nodes.any (fun n => decide (n.name = name)) then
      .error ("duplicate node name: " ++ name, ⟨servers, wf.nodes⟩)
    else
      .ok ⟨servers, wf.nodes ++ [⟨name, server.name, topk, from_nodes⟩]⟩

/-- The `for node_name in node_names` loop of
`_gather_entries_from_previous_nodes`: for each listed name appends one
`Entry` per hit of that node's output, in order and without
de-duplication.  A name absent from `name_to_trace_node` raises
`KeyError`. -/
def gatherEntriesNames (name_to_trace_node : List (String × NodeOutput))
    (acc : List Entry) : List String → Except String (List Entry)
  | [] => .ok acc
  | nm :: rest =>
      match dictGet name_to_trace_node nm with
      | none => .error ("KeyError: " ++ nm)
      | some previous_node =>
          gatherEntriesNames name_to_trace_node
            (acc ++ previous_node.hits.map
              (fun hit => ⟨previous_node.server_name, hit.doc_id, hit.payload⟩))
            rest

/-- The `name_to_trace_node` dict of
`_gather_entries_from_previous_nodes`: `{n.node_name: n for n in trace}`. -/
def traceDict (trace : List NodeOutput) : List (String × NodeOutput) :=
  trace.foldl (fun d n => dictSet d n.node_name n) []

/-- `Workflow._gather_entries_from_previous_nodes`: builds
`name_to_trace_node` from the trace, then gathers entries for the listed
names in order. -/
def Workflow.gather_entries_from_previous_nodes (trace : List NodeOutput)
    (node_names : List String) : Except String (List Entry) :=
  gatherEntriesNames (traceDict trace) [] node_names

/-- `Workflow._exec_search`: look the server up (`KeyError` when absent),
gather entries from the listed previous nodes, ingest them (one
`add_entries` call and one `op="add_entries"` action) when non-empty,
then query the server (one `op="search"` action). -/
def Workflow.exec_search (env : SearchEnv) (wf : Workflow) (node : SearchNode)
    (query : String) (trace : List NodeOutput) :
    Except String (NodeOutput × List ServerAction × List ServerCall) :=
  match dictGet wf.servers node.server_name with
  | none => .error ("KeyError: " ++ node.server_name)
  | some server =>
    match Workflow.gather_entries_from_previous_nodes trace node.from_nodes with
    | .error e => .error e
    | .ok entries_from_previous_nodes =>
      let ingest : List ServerAction × List ServerCall :=
        if entries_from_previous_nodes ≠ [] then
          ([⟨node.name, server.name, "add_entries",
             .addEntriesDetail node.from_nodes entries_from_previous_nodes.length⟩],
           [.addEntriesCall server.config entries_from_previous_nodes])
        else ([], [])
      let hits := env server.config query node.topk
      .ok (⟨node.name, server.name, hits⟩,
           ingest.1 ++ [⟨node.name, server.name, "search",
                         .searchDetail query node.topk⟩],
           ingest.2 ++ [.searchCall server.config query node.topk])

/-- The `for node in self._nodes` loop of `Workflow.search`, threading the
trace and accumulating actions and calls; returns the last output. -/
def searchNodes (env : SearchEnv) (wf : Workflow) (query : String)
    (out : NodeOutput) (trace : List NodeOutput)
    (acts : List ServerAction) (calls : List ServerCall) :
    List SearchNode →
    Except String (NodeOutput × List NodeOutput × List ServerAction × List ServerCall)
  | [] => .ok (out, trace, acts, calls)
  | node :: rest =>
      match Workflow.exec_search env wf node query trace with
      | .error e => .error e
      | .ok (o, a, c) =>
          searchNodes env wf query o (trace ++ [o]) (acts ++ a) (calls ++ c) rest

/-- `Workflow.search`: asserts the node list is non-empty, creates a
fresh trace and a fresh `ServerLog`, executes the nodes in order, and
returns the last output, the trace, the log, and the back-end call
trace. -/
def Workflow.search (env : SearchEnv) (wf : Workflow) (query : String) :
    Except String (NodeOutput × List NodeOutput × List ServerAction × List ServerCall) :=
  match wf.nodes with
  | [] => .error "no nodes in workflow"
  | node :: rest =>
      match Workflow.exec_search env wf node query [] with
      | .error e => .error e
      | .ok (o, a, c) => searchNodes env wf query o [o] a c rest

/-- `Workflow.model_dump`: servers in registration (dict insertion)
order, nodes in declaration order. -/
def Workflow.model_dump (wf : Workflow) : WorkflowConfig :=
  ⟨wf.servers.map (fun p => p.2.model_dump), wf.nodes.map SearchNode.model_dump⟩

/-- The `servers_dict` construction of `Workflow.load_from_config`: each
config is resolved through the registry (error on an unregistered type),
instantiated freshly (`id` is the running index), and registered under
its name; a duplicate name fails the assertion. -/
def loadServers (registry : List String) (idx : Nat)
    (acc : List (String × SearchServer)) :
    List ServerConfig → Except String (List (String × SearchServer))
  | [] => .ok acc
  | cfg :: rest =>
      if cfg.type ∈ registry then
        let server : SearchServer := ⟨idx, cfg⟩
        if (dictGet acc server.name).isSome then
          .error ("duplicate server name: " ++ server.name)
        else
          loadServers registry (idx + 1) (dictSet acc server.name server) rest
      else .error ("unregistered server type: " ++ cfg.type)

/-- The node-loading loop of `Workflow.load_from_config`: each node config
is rebuilt and added via `Workflow.add`, looking its server up in
`servers_dict` (`KeyError` when absent). -/
def loadNodes (servers_dict : List (String × SearchServer)) (wf : Workflow) :
    List SearchNodeConfig → Except String Workflow
  | [] => .ok wf
  | nc :: rest =>
      let node := SearchNode.load_from_config nc
      match dictGet servers_dict node.server_name with
      | none => .error ("KeyError: " ++ node.server_name)
      | some server =>
          match Workflow.add wf server node.name node.from_nodes node.topk with
          | .error (e, _) => .error e
          | .ok wf' => loadNodes servers_dict wf' rest

/-- `Workflow.load_from_config`. -/
def Workflow.load_from_config (registry : List String) (config : WorkflowConfig) :
    Except String Workflow :=
  match loadServers registry 0 [] config.servers with
  | .error e => .error e
  | .ok servers_dict => loadNodes servers_dict Workflow.init config.nodes

end multi_stage_search

namespace merge

/-- Modelled from the spec: the merge-node algorithm of §4.4 is absent
from src/ (both source variants implement only search nodes), so it is
modelled here from the spec's words.  Step 2: min–max normalize one
source's scores to [0,1] using that source's own min/max; when all scores
are equal, the normalization scale is taken as 1 so every normalized
score becomes 0. -/
def normalizeScores : List (String × ℚ) → List (String × ℚ)
  | [] => []
  | h :: hs =>
      let scores := (h :: hs).map (fun p => p.2)
      let mn := scores.foldl min h.2
      let mx := scores.foldl max h.2
      let scale := if mx = mn then 1 else mx - mn
      (h :: hs).map (fun p => (p.1, (p.2 - mn) / scale))

/-- Modelled from the spec: step 3 — append one score to a document's
bucket, creating the bucket at the end on first sight (insertion order). -/
def bucketAdd (d : List (String × List ℚ)) (doc : String) (s : ℚ) :
    List (String × List ℚ) :=
  match dictGet d doc with
  | none => d ++ [(doc, [s])]
  | some l => dictSet d doc (l ++ [s])

/-- Modelled from the spec: step 3 — bucket by document id across all
sources into per-source score lists. -/
def bucket (sources : List (List (String × ℚ))) : List (String × List ℚ) :=
  sources.foldl (fun d src => src.foldl (fun d' p => bucketAdd d' p.1 p.2) d) []

/-- Modelled from the spec: the default combiner — arithmetic mean of the
collected per-source scores. -/
def mean (l : List ℚ) : ℚ := l.sum / l.length

/-- Modelled from the spec: step 7 — stable descending insertion by
combined score: an element is placed before the first element whose score
is not larger, so ties keep first-seen order. -/
def insertDesc (x : String × ℚ) : List (String × ℚ) → List (String × ℚ)
  | [] => [x]
  | y :: ys => if x.2 ≥ y.2 then x :: y :: ys else y :: insertDesc x ys

/-- Modelled from the spec: step 7 — stable sort by combined score
descending. -/
def sortDesc (l : List (String × ℚ)) : List (String × ℚ) :=
  l.foldr insertDesc []

/-- Modelled from the spec: the merge-node algorithm of §4.4.  Fetch each
listed source's stored output (missing output contributes nothing),
optionally normalize per source, bucket across sources, select candidates
by mode (union: every bucketed document; intersect: documents whose score
list length equals the number of sources; any other mode is a
configuration error), combine with the supplied combiner or the mean,
stable-sort descending and truncate to `topk`. -/
def merge_node (outputs : List (String × List (String × ℚ))) (sources : List String)
    (mode : String) (topk : Option Nat) (score_norm : Bool)
    (combiner : Option (List ℚ → ℚ)) : Except String (List (String × ℚ)) :=
  if mode ≠ "union" ∧ mode ≠ "intersect" then
    .error ("invalid merge mode: " ++ mode)
  else
    let fetched := sources.map (fun nm => (dictGet outputs nm).getD [])
    let normed := if score_norm then fetched.map normalizeScores else fetched
    let buckets := bucket normed
    let candidates :=
      if mode = "union" then buckets
      else buckets.filter (fun b => decide (b.2.length = sources.length))
    let combined := candidates.map (fun b => (b.1, (combiner.getD mean) b.2))
    let ranked := sortDesc combined
    .ok (match topk with | none => ranked | some k => ranked.take k)

/-- `insertDesc` produces a permutation: inserting adds exactly the new
element. -/
theorem insertDesc_perm (x : String × ℚ) (l : List (String × ℚ)) :
    (insertDesc x l).Perm (x :: l) := by
  induction l with
  | nil => simp [insertDesc]
  | cons y ys ih =>
      by_cases h : x.2 ≥ y.2
      · simp [insertDesc, h]
      · simp only [insertDesc, if_neg h]
        exact (List.Perm.cons y ih).trans (List.Perm.swap x y ys)

/-- `sortDesc` is a permutation of its input. -/
theorem sortDesc_perm (l : List (String × ℚ)) : (sortDesc l).Perm l := by
  induction l with
  | nil => simp [sortDesc]
  | cons x xs ih =>
      simp only [sortDesc, List.foldr_cons]
      exact (insertDesc_perm x _).trans (ih.cons x)

/-- Inserting keeps the list sorted by descending score. -/
theorem insertDesc_sorted (x : String × ℚ) (l : List (String × ℚ))
    (h : l.Pairwise (fun a b => b.2 ≤ a.2)) :
    (insertDesc x l).Pairwise (fun a b => b.2 ≤ a.2) := by
  induction l with
  | nil => simp [insertDesc]
  | cons y ys ih =>
      rcases List.pairwise_cons.mp h with ⟨hy, hys⟩
      by_cases hxy : x.2 ≥ y.2
      · simp only [insertDesc, if_pos hxy]
        refine List.pairwise_cons.mpr ⟨?_, h⟩
        intro z hz
        rcases List.mem_cons.mp hz with hz1 | hz1
        · subst hz1
          exact hxy
        · exact le_trans (hy z hz1) hxy
      · simp only [insertDesc, if_neg hxy]
        refine List.pairwise_cons.mpr ⟨?_, ih hys⟩
        intro z hz
        have hz0 := (insertDesc_perm x ys).mem_iff.mp hz
        rcases List.mem_cons.mp hz0 with hz1 | hz1
        · subst hz1
          exact le_of_not_le hxy
        · exact hy z hz1

/-- `sortDesc` sorts by descending score. -/
theorem sortDesc_sorted (l : List (String × ℚ)) :
    (sortDesc l).Pairwise (fun a b => b.2 ≤ a.2) := by
  induction l with
  | nil => simp [sortDesc]
  | cons x xs ih =>
      simpa only [sortDesc, List.foldr_cons] using insertDesc_sorted x _ ih

end merge

/-! ## Specification-side characterizations of the gather operations -/

/-- First-occurrence de-duplication, accumulator form: the spec's
"ordered, de-duplicated union ... first occurrence wins". -/
def dedupFirstAux (acc : List String) : List String → List String
  | [] => acc
  | x :: xs => if x ∈ acc then dedupFirstAux acc xs else dedupFirstAux (acc ++ [x]) xs

/-- First-occurrence de-duplication. -/
def dedupFirst (l : List String) : List String := dedupFirstAux [] l

namespace framework

/-- The in-order concatenation of the doc ids of the named outputs
(names in `from_nodes` order, hits in output order, names with no stored
output contributing nothing). -/
def flatIds (outputs : List (String × NodeOutput)) (names : List String) : List String :=
  (names.map (fun nm =>
    ((dictGet outputs nm).map (fun o => o.hits.map (fun h => h.doc_id))).getD [])).flatten

theorem gatherHits_eq_dedupFirstAux (hits : List SearchHit) :
    ∀ acc, gatherHits acc hits = dedupFirstAux acc (hits.map (fun h => h.doc_id)) := by
  induction hits with
  | nil => intro acc; rfl
  | cons h hs ih =>
      intro acc
      by_cases hmem : h.doc_id ∈ acc
      · simp only [gatherHits, if_pos hmem, List.map_cons, dedupFirstAux, ih]
      · simp only [gatherHits, if_neg hmem, List.map_cons, dedupFirstAux, ih]

theorem dedupFirstAux_append (l1 l2 : List String) :
    ∀ acc, dedupFirstAux acc (l1 ++ l2) = dedupFirstAux (dedupFirstAux acc l1) l2 := by
  induction l1 with
  | nil => intro acc; rfl
  | cons x xs ih =>
      intro acc
      by_cases hmem : x ∈ acc
      · simp only [List.cons_append, dedupFirstAux, if_pos hmem]
        exact ih acc
      · simp only [List.cons_append, dedupFirstAux, if_neg hmem]
        exact ih (acc ++ [x])

theorem gatherNames_eq_dedupFirstAux (outputs : List (String × NodeOutput))
    (names : List String) :
    ∀ acc, gatherNames outputs acc names = dedupFirstAux acc (flatIds outputs names) := by
  induction names with
  | nil => intro acc; rfl
  | cons nm rest ih =>
      intro acc
      cases hlook : dictGet outputs nm with
      | none =>
          simp only [gatherNames, hlook, ih, flatIds, List.map_cons,
            List.flatten_cons, Option.map_none', Option.getD_none, List.nil_append]
      | some o =>
          simp only [gatherNames, hlook, ih, flatIds, List.map_cons,
            List.flatten_cons, Option.map_some', Option.getD_some,
            dedupFirstAux_append, gatherHits_eq_dedupFirstAux]

/-- `_gather_doc_ids` is exactly first-occurrence de-duplication of the
in-order union of the named outputs' doc ids. -/
theorem gather_doc_ids_eq (outputs : List (String × NodeOutput)) (names : List String) :
    Workflow.gather_doc_ids outputs names = dedupFirst (flatIds outputs names) := by
  simpa [Workflow.gather_doc_ids, dedupFirst] using
    gatherNames_eq_dedupFirstAux outputs names []

theorem dedupFirstAux_nodup (l : List String) :
    ∀ acc, acc.Nodup → (dedupFirstAux acc l).Nodup := by
  induction l with
  | nil => intro acc h; exact h
  | cons x xs ih =>
      intro acc h
      by_cases hmem : x ∈ acc
      · simpa only [dedupFirstAux, if_pos hmem] using ih acc h
      · refine ?_
        simp only [dedupFirstAux, if_neg hmem]
        refine ih (acc ++ [x]) ?_
        simp [List.nodup_append, h, hmem, List.disjoint_singleton]

/-- The gathered doc-id list has no duplicates. -/
theorem gather_doc_ids_nodup (outputs : List (String × NodeOutput)) (names : List String) :
    (Workflow.gather_doc_ids outputs names).Nodup := by
  rw [gather_doc_ids_eq]
  exact dedupFirstAux_nodup _ [] List.nodup_nil

/-- When a listed name has no stored output it contributes nothing: the
gather over `names` equals the gather over the present names only. -/
theorem gather_doc_ids_skips_missing (outputs : List (String × NodeOutput))
    (names : List String) :
    Workflow.gather_doc_ids outputs names =
      Workflow.gather_doc_ids outputs
        (names.filter (fun nm => (dictGet outputs nm).isSome)) := by
  show gatherNames outputs [] names = gatherNames outputs [] _
  generalize ([] : List String) = acc
  induction names generalizing acc with
  | nil => rfl
  | cons nm rest ih =>
      cases hlook : dictGet outputs nm with
      | none => simp only [gatherNames, hlook, List.filter_cons, Option.isSome_none,
          Bool.false_eq_true, if_neg, ih, reduceIte]
      | some o => simp only [gatherNames, hlook, List.filter_cons, Option.isSome_some,
          if_pos, ih, reduceIte]

end framework

namespace multi_stage_search

/-- The in-order concatenation of Entries from the named trace outputs:
one Entry per hit, names in `from_nodes` order, hits in output order. -/
def flatEntries (d : List (String × NodeOutput)) (names : List String) : List Entry :=
  (names.map (fun nm =>
    ((dictGet d nm).map (fun o =>
      o.hits.map (fun h => Entry.mk o.server_name h.doc_id h.payload))).getD [])).flatten

theorem gatherEntriesNames_ok (d : List (String × NodeOutput)) (names : List String) :
    ∀ acc es, gatherEntriesNames d acc names = .ok es → es = acc ++ flatEntries d names := by
  induction names with
  | nil =>
      intro acc es h
      simp only [gatherEntriesNames] at h
      cases h
      simp [flatEntries]
  | cons nm rest ih =>
      intro acc es h
      cases hlook : dictGet d nm with
      | none =>
          simp only [gatherEntriesNames, hlook] at h
          exact Except.noConfusion h
      | some o =>
          simp only [gatherEntriesNames, hlook] at h
          have h2 := ih _ es h
          simp only [flatEntries, List.map_cons, List.flatten_cons, hlook,
            Option.map_some', Option.getD_some] at h2 ⊢
          simpa [List.append_assoc] using h2

/-- A successful entry-gather is the full, un-de-duplicated in-order
concatenation. -/
theorem gather_entries_ok (trace : List NodeOutput) (names : List String)
    (es : List Entry)
    (h : Workflow.gather_entries_from_previous_nodes trace names = .ok es) :
    es = flatEntries (traceDict trace) names := by
  simpa using gatherEntriesNames_ok (traceDict trace) names [] es h

theorem gatherEntriesNames_missing (d : List (String × NodeOutput)) (names : List String)
    (nm : String) (h1 : nm ∈ names) (h2 : dictGet d nm = none) :
    ∀ acc, ∃ e, gatherEntriesNames d acc names = .error e := by
  induction names with
  | nil => cases h1
  | cons nm0 rest ih =>
      intro acc
      cases hlook : dictGet d nm0 with
      | none => exact ⟨"KeyError: " ++ nm0, by simp [gatherEntriesNames, hlook]⟩
      | some o =>
          rcases List.mem_cons.mp h1 with h1' | h1'
          · subst h1'
            rw [hlook] at h2
            cases h2
          · obtain ⟨e, he⟩ := ih h1'
              (acc ++ o.hits.map
                (fun hit => Entry.mk o.server_name hit.doc_id hit.payload))
            refine ⟨e, ?_⟩
            simp only [gatherEntriesNames, hlook]
            exact he

end multi_stage_search

/-! ## Shared concrete material for witnesses and counterexamples -/

/-- A back-end oracle returning no hits (framework variant). -/
def envF0 : framework.SearchEnv := fun _ _ _ _ => []

/-- A back-end oracle returning no hits (multi-stage variant). -/
def envM0 : multi_stage_search.SearchEnv := fun _ _ _ => []

/-! ## C1 -/

/-- C1 counterexample: in the entry-forwarding variant
(`_gather_entries_from_previous_nodes`) the gathered material is NOT
de-duplicated: with `from_nodes = ["n1", "n2"]` where both prior outputs
contain doc id `"d1"`, the gathered sequence holds two entries with
`source_id = "d1"`, so a doc id can appear more than once. -/
theorem C1_counterexample :
    multi_stage_search.Workflow.gather_entries_from_previous_nodes
      [⟨"n1", "s1", [⟨"d1", 1, []⟩]⟩, ⟨"n2", "s2", [⟨"d1", 1, []⟩]⟩] ["n1", "n2"]
      = .ok [⟨"s1", "d1", []⟩, ⟨"s2", "d1", []⟩]
    ∧ ([multi_stage_search.Entry.mk "s1" "d1" [], multi_stage_search.Entry.mk "s2" "d1" []].map
        (fun e => e.source_id) = ["d1", "d1"])
    ∧ ¬ (["d1", "d1"] : List String).Nodup := by
  refine ⟨rfl, rfl, by decide⟩

/-- C1 (amended): in the doc-id variant, `_gather_doc_ids` is the ordered
first-occurrence de-duplication of the union of the named outputs' doc ids
(names in `from_nodes` order, hits in output order), and the result has no
duplicates; in the entry-forwarding variant, a successful gather is the
same ordered union as full Entries but WITHOUT de-duplication (one entry
per hit). -/
theorem C1_theorem (outputs : List (String × framework.NodeOutput))
    (names : List String) (trace : List multi_stage_search.NodeOutput)
    (names2 : List String) (es : List multi_stage_search.Entry)
    (h : multi_stage_search.Workflow.gather_entries_from_previous_nodes trace names2
          = .ok es) :
    framework.Workflow.gather_doc_ids outputs names
        = dedupFirst (framework.flatIds outputs names)
    ∧ (framework.Workflow.gather_doc_ids outputs names).Nodup
    ∧ es = multi_stage_search.flatEntries (multi_stage_search.traceDict trace) names2 := by
  exact ⟨framework.gather_doc_ids_eq outputs names,
    framework.gather_doc_ids_nodup outputs names,
    multi_stage_search.gather_entries_ok trace names2 es h⟩

/-- C1 witness: the theorem applied at concrete inputs. -/
theorem C1_witness :
    multi_stage_search.Workflow.gather_entries_from_previous_nodes
        [⟨"n1", "s1", [⟨"d1", 1, []⟩]⟩] ["n1", "n1"]
        = .ok [⟨"s1", "d1", []⟩, ⟨"s1", "d1", []⟩]
    ∧ (framework.Workflow.gather_doc_ids
          [("n1", ⟨"n1", [⟨"d1", 1⟩, ⟨"d1", 2⟩]⟩)] ["n1"]
          = dedupFirst (framework.flatIds [("n1", ⟨"n1", [⟨"d1", 1⟩, ⟨"d1", 2⟩]⟩)] ["n1"])
        ∧ (framework.Workflow.gather_doc_ids
            [("n1", ⟨"n1", [⟨"d1", 1⟩, ⟨"d1", 2⟩]⟩)] ["n1"]).Nodup
        ∧ [multi_stage_search.Entry.mk "s1" "d1" [], multi_stage_search.Entry.mk "s1" "d1" []]
            = multi_stage_search.flatEntries
                (multi_stage_search.traceDict [⟨"n1", "s1", [⟨"d1", 1, []⟩]⟩]) ["n1", "n1"]) :=
  ⟨rfl, C1_theorem [("n1", ⟨"n1", [⟨"d1", 1⟩, ⟨"d1", 2⟩]⟩)] ["n1"]
    [⟨"n1", "s1", [⟨"d1", 1, []⟩]⟩] ["n1", "n1"]
    [⟨"s1", "d1", []⟩, ⟨"s1", "d1", []⟩] rfl⟩

/-! ## C3 -/

/-- C3 counterexample: in the doc-id variant a `from_nodes` name that has
not produced an output is NOT a configuration error: the run succeeds,
the missing name silently contributing nothing (the gathered set is empty,
so only a `search` action is logged). -/
theorem C3_counterexample :
    framework.Workflow.run envF0
        (framework.Workflow.init.add ⟨⟨"t", "s", none⟩⟩ (some "n") "q" 10 ["missing"])
      = .ok (⟨[⟨"n", some ⟨⟨"t", "s", none⟩⟩, "q", 10, ["missing"]⟩],
              [("n", ⟨"n", []⟩)],
              [⟨"n", "s", "search", .searchDetail "q" 10 none⟩]⟩,
             [("n", ⟨"n", []⟩)],
             [.searchCall ⟨"t", "s", none⟩ "q" none 10])
    ∧ framework.Workflow.gather_doc_ids [] ["missing"] = [] := by
  exact ⟨rfl, rfl⟩

/-- C3 (amended): in the entry-forwarding variant, executing a search node
whose `from_nodes` names a node absent from the trace fails (KeyError), as
the claim states; in the doc-id variant, however, missing names are
silently skipped: the gather equals the gather over the present names
only. -/
theorem C3_theorem (env : multi_stage_search.SearchEnv)
    (wf : multi_stage_search.Workflow) (node : multi_stage_search.SearchNode)
    (query : String) (trace : List multi_stage_search.NodeOutput) (nm : String)
    (h1 : nm ∈ node.from_nodes)
    (h2 : dictGet (multi_stage_search.traceDict trace) nm = none)
    (outputs : List (String × framework.NodeOutput)) (names : List String) :
    (∃ e, multi_stage_search.Workflow.exec_search env wf node query trace = .error e)
    ∧ framework.Workflow.gather_doc_ids outputs names
        = framework.Workflow.gather_doc_ids outputs
            (names.filter (fun n => (dictGet outputs n).isSome)) := by
  constructor
  · cases hsrv : dictGet wf.servers node.server_name with
    | none =>
        exact ⟨"KeyError: " ++ node.server_name,
          by simp [multi_stage_search.Workflow.exec_search, hsrv]⟩
    | some server =>
        obtain ⟨e, he⟩ := multi_stage_search.gatherEntriesNames_missing
          (multi_stage_search.traceDict trace) node.from_nodes nm h1 h2 []
        refine ⟨e, ?_⟩
        simp [multi_stage_search.Workflow.exec_search, hsrv,
          multi_stage_search.Workflow.gather_entries_from_previous_nodes, he]
  · exact framework.gather_doc_ids_skips_missing outputs names

/-- C3 witness: the theorem applied at concrete inputs. -/
theorem C3_witness :
    "missing" ∈ (multi_stage_search.SearchNode.mk "n" "s" 10 ["missing"]).from_nodes
    ∧ dictGet (multi_stage_search.traceDict []) "missing" = none
    ∧ ((∃ e, multi_stage_search.Workflow.exec_search envM0 ⟨[], []⟩
            ⟨"n", "s", 10, ["missing"]⟩ "q" [] = .error e)
        ∧ framework.Workflow.gather_doc_ids [] ["missing"]
            = framework.Workflow.gather_doc_ids []
                (["missing"].filter (fun n =>
                  (dictGet ([] : List (String × framework.NodeOutput)) n).isSome))) :=
  ⟨by decide, rfl,
    C3_theorem envM0 ⟨[], []⟩ ⟨"n", "s", 10, ["missing"]⟩ "q" [] "missing"
      (by decide) rfl [] ["missing"]⟩

/-! ## C4 -/

/-- C4 counterexample: in the doc-id variant `Workflow.add` performs no
duplicate-node-name check at all — adding the name `"n1"` twice succeeds
and leaves two nodes named `"n1"`; in the entry-forwarding variant the
duplicate-name call does fail, but only after the back-end map was already
mutated: the failing call's state holds the new server `s2`. -/
theorem C4_counterexample :
    ((framework.Workflow.init.add ⟨⟨"t", "s1", none⟩⟩ (some "n1") "q" 10 []).add
        ⟨⟨"t", "s2", none⟩⟩ (some "n1") "q" 10 []).nodes.map (fun n => n.name)
      = ["n1", "n1"]
    ∧ multi_stage_search.Workflow.add
        ⟨[("s1", ⟨1, ⟨"t", "s1", none⟩⟩)], [⟨"n1", "s1", 10, []⟩]⟩
        ⟨2, ⟨"t", "s2", none⟩⟩ "n1" [] 10
      = .error ("duplicate node name: n1",
          ⟨[("s1", ⟨1, ⟨"t", "s1", none⟩⟩), ("s2", ⟨2, ⟨"t", "s2", none⟩⟩)],
           [⟨"n1", "s1", 10, []⟩]⟩)
    ∧ ([("s1", (⟨1, ⟨"t", "s1", none⟩⟩ : multi_stage_search.SearchServer)),
        ("s2", ⟨2, ⟨"t", "s2", none⟩⟩)]
        ≠ [("s1", ⟨1, ⟨"t", "s1", none⟩⟩)]) := by
  refine ⟨rfl, rfl, by decide⟩

/-- C4 (amended): in the entry-forwarding variant, `add` with a duplicate
node name fails with an assertion error and leaves the node list
unchanged, but the back-end map has by then already been updated with the
new server; in the doc-id variant, `add` never checks and always appends,
so duplicate node names are silently accepted. -/
theorem C4_theorem (wfm : multi_stage_search.Workflow)
    (server : multi_stage_search.SearchServer) (node_name : String)
    (fn : List String) (tk : Int)
    (hclash : ∀ ex, dictGet wfm.servers server.name = some ex → ex.id = server.id)
    (hdup : wfm.nodes.any (fun n =>
        decide (n.name = (if node_name = "" then server.name else node_name))) = true)
    (wf : framework.Workflow) (srv : framework.SearchServer)
    (nn : Option String) (q : String) (tk2 : Int) (fn2 : List String) :
    multi_stage_search.Workflow.add wfm server node_name fn tk
      = .error ("duplicate node name: "
                  ++ (if node_name = "" then server.name else node_name),
                ⟨dictSet wfm.servers server.name server, wfm.nodes⟩)
    ∧ (wf.add srv nn q tk2 fn2).nodes
        = wf.nodes ++ [⟨(match nn with
                         | none => srv.name
                         | some s => if s = "" then srv.name else s),
                       some srv, q, tk2, fn2⟩]
    ∧ (wf.add srv nn q tk2 fn2).outputs = wf.outputs
    ∧ (wf.add srv nn q tk2 fn2).log = wf.log := by
  refine ⟨?_, rfl, rfl, rfl⟩
  have hcl : (match dictGet wfm.servers server.name with
      | some existing => decide (existing.id ≠ server.id)
      | none => false) = false := by
    cases hex : dictGet wfm.servers server.name with
    | none => rfl
    | some ex => simp [hclash ex hex]
  simp only [multi_stage_search.Workflow.add, hcl, Bool.false_eq_true, if_neg,
    hdup, if_pos, reduceIte]

/-- C4 witness: the theorem applied at concrete inputs. -/
theorem C4_witness :
    (∀ ex, dictGet [("s1", (⟨1, ⟨"t", "s1", none⟩⟩ : multi_stage_search.SearchServer))] "s2"
        = some ex → ex.id = 2)
    ∧ ([(⟨"n1", "s1", 10, []⟩ : multi_stage_search.SearchNode)].any (fun n =>
        decide (n.name = (if ("n1" : String) = "" then "s2" else "n1"))) = true)
    ∧ (multi_stage_search.Workflow.add
          ⟨[("s1", ⟨1, ⟨"t", "s1", none⟩⟩)], [⟨"n1", "s1", 10, []⟩]⟩
          ⟨2, ⟨"t", "s2", none⟩⟩ "n1" [] 10
        = .error ("duplicate node name: "
                    ++ (if ("n1" : String) = "" then
                          multi_stage_search.SearchServer.name ⟨2, ⟨"t", "s2", none⟩⟩
                        else "n1"),
                  ⟨dictSet [("s1", ⟨1, ⟨"t", "s1", none⟩⟩)]
                      (multi_stage_search.SearchServer.name ⟨2, ⟨"t", "s2", none⟩⟩)
                      ⟨2, ⟨"t", "s2", none⟩⟩,
                   [⟨"n1", "s1", 10, []⟩]⟩)) := by
  refine ⟨by decide, by decide, ?_⟩
  have h := (C4_theorem
    ⟨[("s1", ⟨1, ⟨"t", "s1", none⟩⟩)], [⟨"n1", "s1", 10, []⟩]⟩
    ⟨2, ⟨"t", "s2", none⟩⟩ "n1" [] 10 (by decide) (by decide)
    framework.Workflow.init ⟨⟨"t", "s", none⟩⟩ none "q" 10 []).1
  simpa [multi_stage_search.SearchServer.name] using h

/-! ## C10 -/

/-- C10 counterexample: when `server.name` is itself the empty string and
`node_name` is the (falsy) empty string, the created node's name is `""`,
which DOES equal the supplied `node_name` — so "the node name equals
node_name only when node_name is a non-empty string" fails. -/
theorem C10_counterexample :
    ((framework.Workflow.init.add ⟨⟨"t", "", none⟩⟩ (some "") "q" 10 []).nodes.map
        (fun n => n.name) = [""])
    ∧ ¬ (∀ node : framework.SearchNodeCfg,
          node ∈ (framework.Workflow.init.add ⟨⟨"t", "", none⟩⟩ (some "") "q" 10 []).nodes →
          node.name = "" → ("" : String) ≠ "") := by
  refine ⟨rfl, fun hAll => ?_⟩
  exact hAll ⟨"", some ⟨⟨"t", "", none⟩⟩, "q", 10, []⟩ (by decide) rfl rfl

/-- C10 (amended): in both variants, a falsy `node_name` (`None` or `""`)
makes the created node's name `server.name`, and a non-empty `node_name`
is used as given; since `server.name` may itself be empty, the node name
can coincide with an empty supplied `node_name`. -/
theorem C10_theorem (wf : framework.Workflow) (srv : framework.SearchServer)
    (node_name : Option String) (q : String) (tk : Int) (fn : List String)
    (wfm : multi_stage_search.Workflow) (srvm : multi_stage_search.SearchServer)
    (nn : String) (fnm : List String) (tkm : Int) (w : multi_stage_search.Workflow)
    (hadd : multi_stage_search.Workflow.add wfm srvm nn fnm tkm = .ok w) :
    ((wf.add srv node_name q tk fn).nodes.getLast?.map (fun n => n.name)
        = some (match node_name with
                | none => srv.name
                | some s => if s = "" then srv.name else s))
    ∧ (w.nodes.getLast?.map (fun n => n.name)
        = some (if nn = "" then srvm.name else nn)) := by
  constructor
  · simp [framework.Workflow.add]
  · simp only [multi_stage_search.Workflow.add] at hadd
    by_cases h0 : (match dictGet wfm.servers srvm.name with
        | some existing => decide (existing.id ≠ srvm.id)
        | none => false) = true
    · rw [if_pos h0] at hadd
      exact Except.noConfusion hadd
    · rw [if_neg h0] at hadd
      by_cases h1 : (wfm.nodes.any fun n =>
          decide (n.name = if nn = "" then srvm.name else nn)) = true
      · rw [if_pos h1] at hadd
        exact Except.noConfusion hadd
      · rw [if_neg h1] at hadd
        cases hadd
        simp

/-- C10 witness: the theorem applied at concrete inputs. -/
theorem C10_witness :
    multi_stage_search.Workflow.add ⟨[], []⟩ ⟨1, ⟨"t", "s", none⟩⟩ "" [] 10
        = .ok ⟨[("s", ⟨1, ⟨"t", "s", none⟩⟩)], [⟨"s", "s", 10, []⟩]⟩
    ∧ (((framework.Workflow.init.add ⟨⟨"t", "sf", none⟩⟩ none "q" 10 []).nodes.getLast?.map
          (fun n => n.name)
          = some (match (none : Option String) with
                  | none => framework.SearchServer.name ⟨⟨"t", "sf", none⟩⟩
                  | some s => if s = "" then framework.SearchServer.name ⟨⟨"t", "sf", none⟩⟩
                              else s))
        ∧ (([(⟨"s", "s", 10, []⟩ : multi_stage_search.SearchNode)].getLast?.map
            (fun n => n.name))
            = some (if ("" : String) = ""
                    then multi_stage_search.SearchServer.name ⟨1, ⟨"t", "s", none⟩⟩
                    else ""))) :=
  ⟨rfl, C10_theorem framework.Workflow.init ⟨⟨"t", "sf", none⟩⟩ none "q" 10 []
    ⟨[], []⟩ ⟨1, ⟨"t", "s", none⟩⟩ "" [] 10
    ⟨[("s", ⟨1, ⟨"t", "s", none⟩⟩)], [⟨"s", "s", 10, []⟩]⟩ rfl⟩

/-! ## Assoc-list (Python dict) lemmas -/

theorem dictGet_none_iff_any {α : Type} (d : List (String × α)) (k : String) :
    dictGet d k = none ↔ d.any (fun p => decide (p.1 = k)) = false := by
  simp [dictGet, List.find?_eq_none, List.any_eq_false]

theorem dictGet_some_any {α : Type} (d : List (String × α)) (k : String) (v : α)
    (h : dictGet d k = some v) : d.any (fun p => decide (p.1 = k)) = true := by
  by_contra hfalse
  have : dictGet d k = none := (dictGet_none_iff_any d k).mpr (by
    cases hval : d.any (fun p => decide (p.1 = k)) with
    | true => exact absurd hval hfalse
    | false => rfl)
  rw [this] at h
  exact Option.noConfusion h

theorem dictSet_of_none {α : Type} (d : List (String × α)) (k : String) (v : α)
    (h : dictGet d k = none) : dictSet d k v = d ++ [(k, v)] := by
  rw [dictSet, if_neg]
  rw [(dictGet_none_iff_any d k).mp h]
  exact Bool.false_ne_true

theorem dictGet_cons {α : Type} (k' : String) (v : α) (d : List (String × α)) (k : String) :
    dictGet ((k', v) :: d) k = if k' = k then some v else dictGet d k := by
  by_cases h : k' = k
  · simp [dictGet, List.find?_cons, h]
  · simp [dictGet, List.find?_cons, h]

theorem dictGet_append_singleton {α : Type} (d : List (String × α)) (k k' : String) (v : α) :
    dictGet (d ++ [(k, v)]) k' =
      (match dictGet d k' with
       | some w => some w
       | none => if k = k' then some v else none) := by
  induction d with
  | nil => simp [dictGet_cons, dictGet]
  | cons p rest ih =>
      rw [List.cons_append, dictGet_cons, dictGet_cons]
      by_cases h : p.1 = k'
      · simp [h]
      · simp only [if_neg h, ih]

theorem mapOverwrite_not_mem {α : Type} (rest : List (String × α)) (k : String) (v : α)
    (h : k ∉ rest.map Prod.fst) :
    rest.map (fun q => if q.1 = k then (k, v) else q) = rest := by
  induction rest with
  | nil => rfl
  | cons q rest ih =>
      rw [List.map_cons, List.mem_cons, not_or] at h
      rw [List.map_cons, if_neg (fun hq : q.1 = k => h.1 hq.symm), ih h.2]

theorem dictSet_self {α : Type} (d : List (String × α)) (k : String) (v : α)
    (h : dictGet d k = some v) (hnodup : (d.map Prod.fst).Nodup) :
    dictSet d k v = d := by
  rw [dictSet, if_pos (dictGet_some_any d k v h)]
  induction d with
  | nil => rfl
  | cons p rest ih =>
      rw [List.map_cons, List.nodup_cons] at hnodup
      rw [dictGet_cons] at h
      rw [List.map_cons]
      by_cases hk : p.1 = k
      · rw [if_pos hk] at h ⊢
        cases h
        rw [mapOverwrite_not_mem rest k p.2 (hk ▸ hnodup.1)]
        rw [← hk, Prod.mk.eta]
      · rw [if_neg hk] at h ⊢
        rw [ih h hnodup.2]

/-! ## C9 -/

namespace multi_stage_search

theorem searchNodes_getLast (env : SearchEnv) (wf : Workflow) (q : String) :
    ∀ (todo : List SearchNode) (out : NodeOutput) (trace : List NodeOutput)
      (acts : List ServerAction) (calls : List ServerCall)
      (r : NodeOutput × List NodeOutput × List ServerAction × List ServerCall),
      trace.getLast? = some out →
      searchNodes env wf q out trace acts calls todo = .ok r →
      r.2.1.getLast? = some r.1 ∧ r.2.1 ≠ [] := by
  intro todo
  induction todo with
  | nil =>
      intro out trace acts calls r hlast hok
      simp only [searchNodes] at hok
      cases hok
      refine ⟨hlast, ?_⟩
      intro hnil
      have hnil2 : trace = [] := hnil
      rw [hnil2] at hlast
      exact Option.noConfusion hlast
  | cons node rest ih =>
      intro out trace acts calls r hlast hok
      simp only [searchNodes] at hok
      cases hexec : Workflow.exec_search env wf node q trace with
      | error e => rw [hexec] at hok; exact Except.noConfusion hok
      | ok oac =>
          rw [hexec] at hok
          exact ih oac.1 (trace ++ [oac.1]) _ _ r (by simp) hok

end multi_stage_search

/-- C9: calling `search()` on a workflow with zero nodes raises the
assertion `"no nodes in workflow"` rather than returning an empty trace;
and on every successful `search()` the trace is non-empty and the returned
final `NodeOutput` is its last element, so a caller never receives an
undefined final output. -/
theorem C9_theorem (env : multi_stage_search.SearchEnv)
    (wf : multi_stage_search.Workflow) (q : String)
    (hempty : wf.nodes = [])
    (env2 : multi_stage_search.SearchEnv) (wf2 : multi_stage_search.Workflow)
    (q2 : String) (out : multi_stage_search.NodeOutput)
    (trace : List multi_stage_search.NodeOutput)
    (acts : List multi_stage_search.ServerAction)
    (calls : List multi_stage_search.ServerCall)
    (hok : multi_stage_search.Workflow.search env2 wf2 q2 = .ok (out, trace, acts, calls)) :
    multi_stage_search.Workflow.search env wf q = .error "no nodes in workflow"
    ∧ trace ≠ [] ∧ trace.getLast? = some out := by
  refine ⟨?_, ?_⟩
  · rw [multi_stage_search.Workflow.search, hempty]
  · obtain ⟨srvs, nds⟩ := wf2
    cases nds with
    | nil =>
        simp only [multi_stage_search.Workflow.search] at hok
        exact Except.noConfusion hok
    | cons node rest =>
        simp only [multi_stage_search.Workflow.search] at hok
        cases hexec : multi_stage_search.Workflow.exec_search env2 ⟨srvs, node :: rest⟩
            node q2 [] with
        | error e => rw [hexec] at hok; exact Except.noConfusion hok
        | ok oac =>
            rw [hexec] at hok
            have h := multi_stage_search.searchNodes_getLast env2 ⟨srvs, node :: rest⟩ q2
              rest oac.1 [oac.1] oac.2.1 oac.2.2 (out, trace, acts, calls) (by simp) hok
            exact ⟨h.2, h.1⟩

/-- C9 witness: the theorem applied at concrete inputs. -/
theorem C9_witness :
    (multi_stage_search.Workflow.mk [] []).nodes = []
    ∧ multi_stage_search.Workflow.search envM0
        ⟨[("s", ⟨1, ⟨"t", "s", none⟩⟩)], [⟨"n", "s", 10, []⟩]⟩ "q"
        = .ok (⟨"n", "s", []⟩, [⟨"n", "s", []⟩],
               [⟨"n", "s", "search", .searchDetail "q" 10⟩],
               [.searchCall ⟨"t", "s", none⟩ "q" 10])
    ∧ (multi_stage_search.Workflow.search envM0 ⟨[], []⟩ "q"
          = .error "no nodes in workflow"
        ∧ [multi_stage_search.NodeOutput.mk "n" "s" []] ≠ []
        ∧ [multi_stage_search.NodeOutput.mk "n" "s" []].getLast?
            = some ⟨"n", "s", []⟩) :=
  ⟨rfl, rfl,
    C9_theorem envM0 ⟨[], []⟩ "q" rfl envM0
      ⟨[("s", ⟨1, ⟨"t", "s", none⟩⟩)], [⟨"n", "s", 10, []⟩]⟩ "q"
      ⟨"n", "s", []⟩ [⟨"n", "s", []⟩]
      [⟨"n", "s", "search", .searchDetail "q" 10⟩]
      [.searchCall ⟨"t", "s", none⟩ "q" 10] rfl⟩

/-! ## C6 -/

/-- C6 counterexample: in the entry-forwarding variant, the ingestion
action is logged with `op = "add_entries"`, not `op = "ensure"` as the
claim states: executing a node gathering one entry logs the op sequence
`["add_entries", "search"]`. -/
theorem C6_counterexample :
    (multi_stage_search.Workflow.exec_search envM0
        ⟨[("s2", ⟨2, ⟨"t", "s2", none⟩⟩)], [⟨"n2", "s2", 10, ["n1"]⟩]⟩
        ⟨"n2", "s2", 10, ["n1"]⟩ "q" [⟨"n1", "s1", [⟨"d1", 1, []⟩]⟩]).map
      (fun r => r.2.1.map (fun a => a.op))
      = .ok ["add_entries", "search"]
    ∧ "add_entries" ≠ "ensure" := by
  refine ⟨rfl, by decide⟩

/-- C6 (amended): per search-node execution, when the gathered upstream
material is non-empty the engine makes exactly one ingestion call and one
search call and logs exactly two actions — the ingestion action (op
`"ensure"` in the doc-id variant, `"add_entries"` in the entry-forwarding
variant) with the from-node list and gathered count in its detail,
followed by the `"search"` action; when the gathered material is empty
(no from_nodes or no hits) it makes no ingestion call and logs exactly
one `"search"` action. -/
theorem C6_theorem (env : framework.SearchEnv)
    (outputs : List (String × framework.NodeOutput))
    (cfg : framework.SearchNodeCfg) (srv : framework.SearchServer)
    (h : cfg.server = some srv)
    (envm : multi_stage_search.SearchEnv) (wfm : multi_stage_search.Workflow)
    (node : multi_stage_search.SearchNode) (q : String)
    (trace : List multi_stage_search.NodeOutput)
    (server : multi_stage_search.SearchServer)
    (entries : List multi_stage_search.Entry)
    (hs : dictGet wfm.servers node.server_name = some server)
    (hg : multi_stage_search.Workflow.gather_entries_from_previous_nodes trace
            node.from_nodes = .ok entries) :
    (if cfg.from_nodes ≠ []
        ∧ framework.Workflow.gather_doc_ids outputs cfg.from_nodes ≠ [] then
      framework.Workflow.exec_search env outputs cfg
        = .ok (⟨cfg.name, env srv.config cfg.query
                  (some (framework.Workflow.gather_doc_ids outputs cfg.from_nodes))
                  cfg.topk⟩,
               [⟨cfg.name, srv.name, "ensure",
                 .ensureDetail cfg.from_nodes
                   (framework.Workflow.gather_doc_ids outputs cfg.from_nodes).length⟩,
                ⟨cfg.name, srv.name, "search",
                 .searchDetail cfg.query cfg.topk
                   (some (framework.Workflow.gather_doc_ids outputs cfg.from_nodes).length)⟩],
               [.ensureCall srv.config
                  (framework.Workflow.gather_doc_ids outputs cfg.from_nodes)
                  cfg.from_nodes,
                .searchCall srv.config cfg.query
                  (some (framework.Workflow.gather_doc_ids outputs cfg.from_nodes))
                  cfg.topk])
     else
      framework.Workflow.exec_search env outputs cfg
        = .ok (⟨cfg.name, env srv.config cfg.query none cfg.topk⟩,
               [⟨cfg.name, srv.name, "search",
                 .searchDetail cfg.query cfg.topk none⟩],
               [.searchCall srv.config cfg.query none cfg.topk]))
    ∧ (if entries ≠ [] then
        multi_stage_search.Workflow.exec_search envm wfm node q trace
          = .ok (⟨node.name, server.name, envm server.config q node.topk⟩,
                 [⟨node.name, server.name, "add_entries",
                   .addEntriesDetail node.from_nodes entries.length⟩,
                  ⟨node.name, server.name, "search", .searchDetail q node.topk⟩],
                 [.addEntriesCall server.config entries,
                  .searchCall server.config q node.topk])
       else
        multi_stage_search.Workflow.exec_search envm wfm node q trace
          = .ok (⟨node.name, server.name, envm server.config q node.topk⟩,
                 [⟨node.name, server.name, "search", .searchDetail q node.topk⟩],
                 [.searchCall server.config q node.topk])) := by
  constructor
  · by_cases h1 : cfg.from_nodes = []
    · rw [if_neg (fun hand => hand.1 h1)]
      simp [framework.Workflow.exec_search, h, h1]
    · by_cases h2 : framework.Workflow.gather_doc_ids outputs cfg.from_nodes = []
      · rw [if_neg (fun hand => hand.2 h2)]
        simp [framework.Workflow.exec_search, h, h1, h2]
      · rw [if_pos ⟨h1, h2⟩]
        simp [framework.Workflow.exec_search, h, h1, h2]
  · by_cases hE : entries = []
    · rw [if_neg (fun hne => hne hE)]
      simp [multi_stage_search.Workflow.exec_search, hs, hg, hE]
    · rw [if_pos hE]
      simp [multi_stage_search.Workflow.exec_search, hs, hg, hE]

/-- C6 witness: the theorem applied at concrete inputs. -/
theorem C6_witness :
    (framework.SearchNodeCfg.mk "n" (some ⟨⟨"t", "s", none⟩⟩) "q" 10 []).server
        = some ⟨⟨"t", "s", none⟩⟩
    ∧ dictGet
        [("s2", (⟨2, ⟨"t", "s2", none⟩⟩ : multi_stage_search.SearchServer))] "s2"
        = some ⟨2, ⟨"t", "s2", none⟩⟩
    ∧ multi_stage_search.Workflow.gather_entries_from_previous_nodes
        [⟨"n1", "s1", [⟨"d1", 1, []⟩]⟩] ["n1"] = .ok [⟨"s1", "d1", []⟩]
    ∧ ((if ([] : List String) ≠ []
            ∧ framework.Workflow.gather_doc_ids [] [] ≠ [] then
          framework.Workflow.exec_search envF0 [] ⟨"n", some ⟨⟨"t", "s", none⟩⟩, "q", 10, []⟩
            = .ok (⟨"n", envF0 ⟨"t", "s", none⟩ "q"
                      (some (framework.Workflow.gather_doc_ids [] [])) 10⟩,
                   [⟨"n", framework.SearchServer.name ⟨⟨"t", "s", none⟩⟩, "ensure",
                     .ensureDetail [] (framework.Workflow.gather_doc_ids [] []).length⟩,
                    ⟨"n", framework.SearchServer.name ⟨⟨"t", "s", none⟩⟩, "search",
                     .searchDetail "q" 10
                       (some (framework.Workflow.gather_doc_ids [] []).length)⟩],
                   [.ensureCall ⟨"t", "s", none⟩ (framework.Workflow.gather_doc_ids [] []) [],
                    .searchCall ⟨"t", "s", none⟩ "q"
                      (some (framework.Workflow.gather_doc_ids [] [])) 10])
         else
          framework.Workflow.exec_search envF0 [] ⟨"n", some ⟨⟨"t", "s", none⟩⟩, "q", 10, []⟩
            = .ok (⟨"n", envF0 ⟨"t", "s", none⟩ "q" none 10⟩,
                   [⟨"n", framework.SearchServer.name ⟨⟨"t", "s", none⟩⟩, "search",
                     .searchDetail "q" 10 none⟩],
                   [.searchCall ⟨"t", "s", none⟩ "q" none 10]))
        ∧ (if ([multi_stage_search.Entry.mk "s1" "d1" []] : List multi_stage_search.Entry) ≠ [] then
            multi_stage_search.Workflow.exec_search envM0
                ⟨[("s2", ⟨2, ⟨"t", "s2", none⟩⟩)], [⟨"n2", "s2", 10, ["n1"]⟩]⟩
                ⟨"n2", "s2", 10, ["n1"]⟩ "q" [⟨"n1", "s1", [⟨"d1", 1, []⟩]⟩]
              = .ok (⟨"n2", multi_stage_search.SearchServer.name ⟨2, ⟨"t", "s2", none⟩⟩,
                        envM0 ⟨"t", "s2", none⟩ "q" 10⟩,
                     [⟨"n2", multi_stage_search.SearchServer.name ⟨2, ⟨"t", "s2", none⟩⟩,
                       "add_entries",
                       .addEntriesDetail ["n1"] [multi_stage_search.Entry.mk "s1" "d1" []].length⟩,
                      ⟨"n2", multi_stage_search.SearchServer.name ⟨2, ⟨"t", "s2", none⟩⟩,
                       "search", .searchDetail "q" 10⟩],
                     [.addEntriesCall ⟨"t", "s2", none⟩ [⟨"s1", "d1", []⟩],
                      .searchCall ⟨"t", "s2", none⟩ "q" 10])
           else
            multi_stage_search.Workflow.exec_search envM0
                ⟨[("s2", ⟨2, ⟨"t", "s2", none⟩⟩)], [⟨"n2", "s2", 10, ["n1"]⟩]⟩
                ⟨"n2", "s2", 10, ["n1"]⟩ "q" [⟨"n1", "s1", [⟨"d1", 1, []⟩]⟩]
              = .ok (⟨"n2", multi_stage_search.SearchServer.name ⟨2, ⟨"t", "s2", none⟩⟩,
                        envM0 ⟨"t", "s2", none⟩ "q" 10⟩,
                     [⟨"n2", multi_stage_search.SearchServer.name ⟨2, ⟨"t", "s2", none⟩⟩,
                       "search", .searchDetail "q" 10⟩],
                     [.searchCall ⟨"t", "s2", none⟩ "q" 10]))) :=
  ⟨rfl, rfl, rfl,
    C6_theorem envF0 [] ⟨"n", some ⟨⟨"t", "s", none⟩⟩, "q", 10, []⟩ ⟨⟨"t", "s", none⟩⟩ rfl
      envM0 ⟨[("s2", ⟨2, ⟨"t", "s2", none⟩⟩)], [⟨"n2", "s2", 10, ["n1"]⟩]⟩
      ⟨"n2", "s2", 10, ["n1"]⟩ "q" [⟨"n1", "s1", [⟨"d1", 1, []⟩]⟩]
      ⟨2, ⟨"t", "s2", none⟩⟩ [⟨"s1", "d1", []⟩] rfl rfl⟩

/-! ## C7 -/

/-- C7 counterexample: in the doc-id variant `self.log` persists across
`run()` invocations: after one run on a one-node workflow the log holds
one `"search"` action, and a second `run()` on the same object yields a
log holding two — the action of the earlier invocation is observable in
(and merged into) the later invocation's log. -/
theorem C7_counterexample :
    (framework.Workflow.run envF0
        (framework.Workflow.init.add ⟨⟨"t", "s", none⟩⟩ (some "n") "q" 10 [])).map
      (fun r => r.1.log.map (fun a => a.op)) = .ok ["search"]
    ∧ ((framework.Workflow.run envF0
          (framework.Workflow.init.add ⟨⟨"t", "s", none⟩⟩ (some "n") "q" 10 [])).bind
        (fun r => framework.Workflow.run envF0 r.1)).map
        (fun r => r.1.log.map (fun a => a.op)) = .ok ["search", "search"] := by
  exact ⟨rfl, rfl⟩

/-- C7 (amended): every `run()` starts from a fresh outputs store — the
returned outputs, back-end calls, the final outputs field and the actions
appended in this invocation are independent of the outputs and log the
workflow object held before the call; but the action log is NOT fresh:
the final log is the pre-existing log with this invocation's actions
appended (doc-id variant; in the entry-forwarding variant `search()`
builds its trace and `ServerLog` locally, so there is no persistent state
at all). -/
theorem C7_theorem (env : framework.SearchEnv) (wf : framework.Workflow) :
    framework.Workflow.run env wf
      = (framework.Workflow.run env ⟨wf.nodes, [], []⟩).map
          (fun r => (⟨r.1.nodes, r.1.outputs, wf.log ++ r.1.log⟩, r.2)) := by
  rw [framework.Workflow.run, framework.Workflow.run]
  cases framework.runNodes env [] [] [] wf.nodes with
  | error e => rfl
  | ok oac => simp [Except.map]

/-! ## C8 -/

theorem loadServers_ok_nodup (reg : List String) :
    ∀ (cfgs : List multi_stage_search.ServerConfig) (idx : Nat)
      (acc out : List (String × multi_stage_search.SearchServer)),
      multi_stage_search.loadServers reg idx acc cfgs = .ok out →
      (cfgs.map (fun c => c.name)).Nodup ∧ ∀ c ∈ cfgs, dictGet acc c.name = none := by
  intro cfgs
  induction cfgs with
  | nil =>
      intro idx acc out _
      exact ⟨List.nodup_nil, by simp⟩
  | cons c rest ih =>
      intro idx acc out hok
      rw [multi_stage_search.loadServers] at hok
      by_cases htype : c.type ∈ reg
      · rw [if_pos htype] at hok
        have hok2 : (if (dictGet acc c.name).isSome = true then
              (Except.error ("duplicate server name: " ++ c.name) :
                Except String (List (String × multi_stage_search.SearchServer)))
            else multi_stage_search.loadServers reg (idx + 1)
              (dictSet acc c.name ⟨idx, c⟩) rest) = .ok out := hok
        clear hok
        cases hnone : (dictGet acc c.name).isSome with
        | true => rw [if_pos hnone] at hok2; exact Except.noConfusion hok2
        | false =>
            rw [if_neg (by rw [hnone]; exact Bool.false_ne_true)] at hok2
            have hok := hok2
            have hget : dictGet acc c.name = none := by
              cases hval : dictGet acc c.name with
              | none => rfl
              | some w => rw [hval] at hnone; exact Bool.noConfusion hnone
            obtain ⟨hnd, hall⟩ := ih (idx + 1) _ out hok
            have hset : dictSet acc c.name
                (⟨idx, c⟩ : multi_stage_search.SearchServer)
                = acc ++ [(c.name, ⟨idx, c⟩)] :=
              dictSet_of_none acc c.name ⟨idx, c⟩ hget
            have hrest : ∀ c2 ∈ rest, dictGet acc c2.name = none ∧ c.name ≠ c2.name := by
              intro c2 hc2
              have h2 := hall c2 hc2
              rw [hset, dictGet_append_singleton] at h2
              cases hacc : dictGet acc c2.name with
              | some w => rw [hacc] at h2; exact Option.noConfusion h2
              | none =>
                  rw [hacc] at h2
                  refine ⟨rfl, ?_⟩
                  intro heq
                  rw [if_pos heq] at h2
                  exact Option.noConfusion h2
            refine ⟨List.nodup_cons.mpr ⟨?_, hnd⟩, ?_⟩
            · intro hmem
              obtain ⟨c2, hc2, hname⟩ := List.mem_map.mp hmem
              exact (hrest c2 hc2).2 hname.symm
            · intro c2 hc2
              rcases List.mem_cons.mp hc2 with h2 | h2
              · exact h2 ▸ hget
              · exact (hrest c2 h2).1
      · rw [if_neg htype] at hok
        exact Except.noConfusion hok

/-- C8: back-end names are unique in the entry-forwarding variant:
`add` with a same-named but different back-end instance fails before any
mutation; `add` with the identical instance leaves the server map
unchanged whatever the outcome (the re-registration is a no-op); and
`load_from_config` rejects duplicate back-end names in the config (each
loaded instance is fresh, hence always a different instance). -/
theorem C8_theorem (wf : multi_stage_search.Workflow)
    (s ex : multi_stage_search.SearchServer) (nn : String) (fn : List String) (tk : Int)
    (hex : dictGet wf.servers s.name = some ex) (hdiff : ex.id ≠ s.id)
    (wf2 : multi_stage_search.Workflow) (s2 : multi_stage_search.SearchServer)
    (nn2 : String) (fn2 : List String) (tk2 : Int)
    (hsame : dictGet wf2.servers s2.name = some s2)
    (hnodup : (wf2.servers.map Prod.fst).Nodup)
    (reg : List String) (cfgs : List multi_stage_search.ServerConfig)
    (hdup : ¬ (cfgs.map (fun c => c.name)).Nodup) :
    multi_stage_search.Workflow.add wf s nn fn tk
      = .error ("duplicate server name: " ++ s.name, wf)
    ∧ (∀ w, multi_stage_search.Workflow.add wf2 s2 nn2 fn2 tk2 = .ok w →
        w.servers = wf2.servers)
    ∧ (∀ e w, multi_stage_search.Workflow.add wf2 s2 nn2 fn2 tk2 = .error (e, w) →
        w.servers = wf2.servers)
    ∧ ∃ e, multi_stage_search.loadServers reg 0 [] cfgs = .error e := by
  have hset := dictSet_self wf2.servers s2.name s2 hsame hnodup
  have hadd : multi_stage_search.Workflow.add wf2 s2 nn2 fn2 tk2
      = (if wf2.nodes.any (fun n =>
            decide (n.name = if nn2 = "" then s2.name else nn2)) then
          Except.error ("duplicate node name: " ++ (if nn2 = "" then s2.name else nn2),
            ⟨wf2.servers, wf2.nodes⟩)
        else
          .ok ⟨wf2.servers, wf2.nodes
                ++ [⟨if nn2 = "" then s2.name else nn2, s2.name, tk2, fn2⟩]⟩) := by
    simp [multi_stage_search.Workflow.add, hsame, hset]
  refine ⟨?_, ?_, ?_, ?_⟩
  · simp [multi_stage_search.Workflow.add, hex, hdiff]
  · intro w hw
    rw [hadd] at hw
    by_cases hany : wf2.nodes.any (fun n =>
        decide (n.name = if nn2 = "" then s2.name else nn2)) = true
    · rw [if_pos hany] at hw
      exact Except.noConfusion hw
    · rw [if_neg hany] at hw
      cases hw
      rfl
  · intro e w hw
    rw [hadd] at hw
    by_cases hany : wf2.nodes.any (fun n =>
        decide (n.name = if nn2 = "" then s2.name else nn2)) = true
    · rw [if_pos hany] at hw
      cases hw
      rfl
    · rw [if_neg hany] at hw
      exact Except.noConfusion hw
  · cases hres : multi_stage_search.loadServers reg 0 [] cfgs with
    | error e => exact ⟨e, rfl⟩
    | ok out => exact absurd (loadServers_ok_nodup reg cfgs 0 [] out hres).1 hdup

/-- C8 witness: the theorem applied at concrete inputs. -/
theorem C8_witness :
    dictGet [("s", (⟨1, ⟨"t", "s", none⟩⟩ : multi_stage_search.SearchServer))]
        (multi_stage_search.SearchServer.name ⟨2, ⟨"t", "s", none⟩⟩)
        = some ⟨1, ⟨"t", "s", none⟩⟩
    ∧ (1 : Nat) ≠ 2
    ∧ dictGet [("s", (⟨1, ⟨"t", "s", none⟩⟩ : multi_stage_search.SearchServer))]
        (multi_stage_search.SearchServer.name ⟨1, ⟨"t", "s", none⟩⟩)
        = some ⟨1, ⟨"t", "s", none⟩⟩
    ∧ ¬ ([multi_stage_search.ServerConfig.mk "t" "a" none,
          multi_stage_search.ServerConfig.mk "t" "a" none].map (fun c => c.name)).Nodup
    ∧ (multi_stage_search.Workflow.add ⟨[("s", ⟨1, ⟨"t", "s", none⟩⟩)], []⟩
          ⟨2, ⟨"t", "s", none⟩⟩ "n" [] 10
        = .error ("duplicate server name: "
              ++ multi_stage_search.SearchServer.name ⟨2, ⟨"t", "s", none⟩⟩,
            ⟨[("s", ⟨1, ⟨"t", "s", none⟩⟩)], []⟩)
      ∧ (∀ w, multi_stage_search.Workflow.add ⟨[("s", ⟨1, ⟨"t", "s", none⟩⟩)], []⟩
            ⟨1, ⟨"t", "s", none⟩⟩ "n" [] 10 = .ok w →
          w.servers = [("s", ⟨1, ⟨"t", "s", none⟩⟩)])
      ∧ (∀ e w, multi_stage_search.Workflow.add ⟨[("s", ⟨1, ⟨"t", "s", none⟩⟩)], []⟩
            ⟨1, ⟨"t", "s", none⟩⟩ "n" [] 10 = .error (e, w) →
          w.servers = [("s", ⟨1, ⟨"t", "s", none⟩⟩)])
      ∧ ∃ e, multi_stage_search.loadServers ["t"] 0 []
          [⟨"t", "a", none⟩, ⟨"t", "a", none⟩] = .error e) :=
  ⟨rfl, by decide, rfl, by decide,
    C8_theorem ⟨[("s", ⟨1, ⟨"t", "s", none⟩⟩)], []⟩ ⟨2, ⟨"t", "s", none⟩⟩
      ⟨1, ⟨"t", "s", none⟩⟩ "n" [] 10 rfl (by decide)
      ⟨[("s", ⟨1, ⟨"t", "s", none⟩⟩)], []⟩ ⟨1, ⟨"t", "s", none⟩⟩ "n" [] 10 rfl
      (by decide) ["t"] [⟨"t", "a", none⟩, ⟨"t", "a", none⟩] (by decide)⟩

/-! ## C2 -/

/-- C2: union-mode merge with `score_norm = false` and no custom combiner
over A = [(d1, 1.0)], B = [(d1, 0.0), (d2, 1.0)] yields
[(d2, 1.0), (d1, 0.5)]; in general (union mode, raw scores, mean
combiner) the result's scores are in descending order, and with no `topk`
cap the result is a permutation of one candidate per bucketed document
scored by the arithmetic mean of its per-source scores. -/
theorem C2_theorem (outs : List (String × List (String × ℚ))) (sources : List String)
    (topk : Option Nat) (r : List (String × ℚ))
    (hr : merge.merge_node outs sources "union" topk false none = .ok r)
    (outs2 : List (String × List (String × ℚ))) (sources2 : List String)
    (r2 : List (String × ℚ))
    (hr2 : merge.merge_node outs2 sources2 "union" none false none = .ok r2) :
    merge.merge_node [("A", [("d1", 1)]), ("B", [("d1", 0), ("d2", 1)])] ["A", "B"]
        "union" none false none = .ok [("d2", 1), ("d1", 1/2)]
    ∧ r.Pairwise (fun a b => b.2 ≤ a.2)
    ∧ r2.Perm ((merge.bucket (sources2.map (fun nm => (dictGet outs2 nm).getD []))).map
        (fun b => (b.1, merge.mean b.2))) := by
  refine ⟨?_, ?_, ?_⟩
  · norm_num [merge.merge_node, merge.sortDesc, merge.insertDesc, merge.bucket,
      merge.bucketAdd, merge.mean, dictGet, dictSet, List.sum, List.find?, List.any,
      List.foldl, List.foldr, List.filter]
  · simp only [merge.merge_node] at hr
    rw [if_neg (by simp)] at hr
    cases topk with
    | none =>
        simp only [Bool.false_eq_true, if_neg, reduceIte] at hr
        cases hr
        exact merge.sortDesc_sorted _
    | some k =>
        simp only [Bool.false_eq_true, if_neg, reduceIte] at hr
        cases hr
        exact (merge.sortDesc_sorted _).sublist (List.take_sublist k _)
  · simp only [merge.merge_node] at hr2
    rw [if_neg (by simp)] at hr2
    simp only [Bool.false_eq_true, if_neg, reduceIte] at hr2
    cases hr2
    exact merge.sortDesc_perm _

/-- C2 witness: the theorem applied at concrete inputs. -/
theorem C2_witness :
    merge.merge_node [("A", [("d1", 1)]), ("B", [("d1", 0), ("d2", 1)])] ["A", "B"]
        "union" none false none = .ok [("d2", 1), ("d1", 1/2)]
    ∧ (merge.merge_node [("A", [("d1", 1)]), ("B", [("d1", 0), ("d2", 1)])] ["A", "B"]
          "union" none false none = .ok [("d2", 1), ("d1", 1/2)]
        ∧ ([(("d2", 1) : String × ℚ), ("d1", 1/2)]).Pairwise (fun a b => b.2 ≤ a.2)
        ∧ ([(("d2", 1) : String × ℚ), ("d1", 1/2)]).Perm
            ((merge.bucket (["A", "B"].map (fun nm =>
                (dictGet [("A", [(("d1", 1) : String × ℚ)]),
                  ("B", [("d1", 0), ("d2", 1)])] nm).getD []))).map
              (fun b => (b.1, merge.mean b.2)))) := by
  have hconc : merge.merge_node [("A", [("d1", 1)]), ("B", [("d1", 0), ("d2", 1)])]
      ["A", "B"] "union" none false none = .ok [("d2", 1), ("d1", 1/2)] := by
    norm_num [merge.merge_node, merge.sortDesc, merge.insertDesc, merge.bucket,
      merge.bucketAdd, merge.mean, dictGet, dictSet, List.sum, List.find?, List.any,
      List.foldl, List.foldr, List.filter]
  exact ⟨hconc,
    C2_theorem [("A", [("d1", 1)]), ("B", [("d1", 0), ("d2", 1)])] ["A", "B"] none
      [("d2", 1), ("d1", 1/2)] hconc
      [("A", [("d1", 1)]), ("B", [("d1", 0), ("d2", 1)])] ["A", "B"]
      [("d2", 1), ("d1", 1/2)] hconc⟩

/-! ## C5 — configuration round-trip -/

namespace framework

theorem nodes_roundtrip (reg : List String) :
    ∀ (nodes : List SearchNodeCfg),
      (∀ n ∈ nodes, ∃ s, n.server = some s ∧ s.config.type ∈ reg) →
      ∃ ncs nodes2,
        dumpNodes nodes = .ok ncs
        ∧ loadNodeCfgs reg ncs = .ok nodes2
        ∧ dumpNodes nodes2 = .ok ncs := by
  intro nodes
  induction nodes with
  | nil => intro _; exact ⟨[], [], rfl, rfl, rfl⟩
  | cons n rest ih =>
      intro h
      obtain ⟨s, hs, hreg⟩ := h n (List.mem_cons_self n rest)
      obtain ⟨ncs, nodes2, h1, h2, h3⟩ := ih (fun m hm => h m (List.mem_cons_of_mem n hm))
      refine ⟨⟨n.name, s.config, n.query, some n.topk, some n.from_nodes⟩ :: ncs,
              ⟨n.name, some ⟨s.config⟩, n.query, n.topk, n.from_nodes⟩ :: nodes2,
              ?_, ?_, ?_⟩
      · simp [dumpNodes, SearchNodeCfg.model_dump, hs, h1, SearchServer.model_dump]
      · simp [loadNodeCfgs, SearchNodeCfg.load_from_config,
          registryLoadServer, hreg, h2]
      · simp [dumpNodes, SearchNodeCfg.model_dump, h3, SearchServer.model_dump]

theorem workflow_roundtrip (reg : List String) (wf : Workflow)
    (h : ∀ n ∈ wf.nodes, ∃ s, n.server = some s ∧ s.config.type ∈ reg) :
    ∃ dump wf2, wf.model_dump = .ok dump
      ∧ Workflow.load_from_config reg dump = .ok wf2
      ∧ wf2.model_dump = .ok dump := by
  obtain ⟨ncs, nodes2, h1, h2, h3⟩ := nodes_roundtrip reg wf.nodes h
  refine ⟨⟨"workflow", ncs⟩, ⟨nodes2, [], []⟩, ?_, ?_, ?_⟩
  · rw [Workflow.model_dump, h1]
  · rw [Workflow.load_from_config]
    simp only [ne_eq, not_true_eq_false, if_neg, reduceIte]
    rw [h2]
  · rw [Workflow.model_dump]
    rw [h3]

end framework

theorem dictGet_eq_none_of_not_mem {α : Type} (d : List (String × α)) (k : String)
    (h : k ∉ d.map Prod.fst) : dictGet d k = none := by
  induction d with
  | nil => rfl
  | cons p rest ih =>
      rw [List.map_cons, List.mem_cons, not_or] at h
      rw [dictGet_cons, if_neg (fun hp => h.1 hp.symm)]
      exact ih h.2

theorem dictGet_isSome_of_mem {α : Type} (d : List (String × α)) (k : String)
    (h : k ∈ d.map Prod.fst) : (dictGet d k).isSome = true := by
  induction d with
  | nil => cases h
  | cons p rest ih =>
      rw [List.map_cons, List.mem_cons] at h
      rw [dictGet_cons]
      by_cases hp : p.1 = k
      · rw [if_pos hp]; rfl
      · rcases h with h | h
        · exact absurd h.symm hp
        · rw [if_neg hp]; exact ih h

theorem dictGet_mem {α : Type} (d : List (String × α)) (k : String) (v : α)
    (h : dictGet d k = some v) : (k, v) ∈ d := by
  induction d with
  | nil => exact Option.noConfusion h
  | cons p rest ih =>
      rw [dictGet_cons] at h
      by_cases hp : p.1 = k
      · rw [if_pos hp] at h
        cases h
        exact hp ▸ List.mem_cons_self p rest
      · rw [if_neg hp] at h
        exact List.mem_cons_of_mem p (ih h)

theorem dictGet_map_value {α β : Type} (f : α → β) (d : List (String × α)) (k : String) :
    dictGet (d.map (fun p => (p.1, f p.2))) k = (dictGet d k).map f := by
  induction d with
  | nil => rfl
  | cons p rest ih =>
      rw [List.map_cons, dictGet_cons, dictGet_cons]
      by_cases hp : p.1 = k
      · rw [if_pos hp, if_pos hp]
        rfl
      · rw [if_neg hp, if_neg hp]
        exact ih

namespace multi_stage_search

/-- The dict of freshly loaded server instances that `loadServers` builds
from a duplicate-free config list: the instance ids are the running
indices. -/
def mkSd (idx : Nat) : List ServerConfig → List (String × SearchServer)
  | [] => []
  | c :: rest => (c.name, ⟨idx, c⟩) :: mkSd (idx + 1) rest

theorem mkSd_keys (cfgs : List ServerConfig) :
    ∀ idx, (mkSd idx cfgs).map Prod.fst = cfgs.map (fun c => c.name) := by
  induction cfgs with
  | nil => intro idx; rfl
  | cons c rest ih => intro idx; simp [mkSd, ih]

theorem mkSd_name (cfgs : List ServerConfig) :
    ∀ idx, ∀ p ∈ mkSd idx cfgs, SearchServer.name p.2 = p.1 := by
  induction cfgs with
  | nil => intro idx p hp; cases hp
  | cons c rest ih =>
      intro idx p hp
      rcases List.mem_cons.mp hp with hp | hp
      · subst hp; rfl
      · exact ih (idx + 1) p hp

theorem mkSd_get (cfgs : List ServerConfig) :
    ∀ idx k, (dictGet (mkSd idx cfgs) k).map (fun sv => sv.config)
      = dictGet (cfgs.map (fun c => (c.name, c))) k := by
  induction cfgs with
  | nil => intro idx k; rfl
  | cons c rest ih =>
      intro idx k
      rw [mkSd, List.map_cons, dictGet_cons, dictGet_cons]
      by_cases hc : c.name = k
      · rw [if_pos hc, if_pos hc]
        rfl
      · rw [if_neg hc, if_neg hc]
        exact ih (idx + 1) k

/-- `loadServers` on a registered, duplicate-free config list succeeds and
extends the accumulator with the fresh instances in config order. -/
theorem loadServers_spec (reg : List String) :
    ∀ (cfgs : List ServerConfig) (idx : Nat)
      (acc : List (String × SearchServer)),
      (∀ c ∈ cfgs, c.type ∈ reg) →
      (acc.map Prod.fst ++ cfgs.map (fun c => c.name)).Nodup →
      loadServers reg idx acc cfgs = .ok (acc ++ mkSd idx cfgs) := by
  intro cfgs
  induction cfgs with
  | nil =>
      intro idx acc _ _
      simp [loadServers, mkSd]
  | cons c rest ih =>
      intro idx acc htypes hnodup
      have hcname : c.name ∉ acc.map Prod.fst := by
        intro hmem
        rcases List.nodup_append.mp hnodup with ⟨_, _, hdisj⟩
        exact hdisj hmem (by simp)
      have hget : dictGet acc c.name = none := dictGet_eq_none_of_not_mem acc c.name hcname
      have hset : dictSet acc c.name (⟨idx, c⟩ : SearchServer)
          = acc ++ [(c.name, ⟨idx, c⟩)] := dictSet_of_none acc c.name ⟨idx, c⟩ hget
      rw [loadServers, if_pos (htypes c (List.mem_cons_self c rest))]
      show (if (dictGet acc c.name).isSome = true then
            (Except.error ("duplicate server name: " ++ c.name) :
              Except String (List (String × SearchServer)))
          else loadServers reg (idx + 1) (dictSet acc c.name ⟨idx, c⟩) rest)
          = Except.ok (acc ++ mkSd idx (c :: rest))
      have hok2 : (if (dictGet acc c.name).isSome = true then
            (Except.error ("duplicate server name: " ++ c.name) :
              Except String (List (String × SearchServer)))
          else loadServers reg (idx + 1) (dictSet acc c.name ⟨idx, c⟩) rest)
          = loadServers reg (idx + 1) (dictSet acc c.name ⟨idx, c⟩) rest := by
        rw [hget]
        rfl
      rw [hok2, hset]
      have hnodup2 : ((acc ++ [(c.name, (⟨idx, c⟩ : SearchServer))]).map Prod.fst
          ++ rest.map (fun c => c.name)).Nodup := by
        simpa [List.append_assoc] using hnodup
      have hih := ih (idx + 1) (acc ++ [(c.name, (⟨idx, c⟩ : SearchServer))])
        (fun c2 hc2 => htypes c2 (List.mem_cons_of_mem c hc2)) hnodup2
      rw [hih, mkSd, List.append_assoc]
      rfl

/-- The sub-dict of `d` with keys drawn from `ks`, in `ks` order. -/
def restrictKeys (d : List (String × SearchServer)) : List String →
    List (String × SearchServer)
  | [] => []
  | k :: ks =>
      match dictGet d k with
      | none => restrictKeys d ks
      | some v => (k, v) :: restrictKeys d ks

theorem restrictKeys_get_of_none (d : List (String × SearchServer)) (k : String)
    (h : dictGet d k = none) :
    ∀ ks, dictGet (restrictKeys d ks) k = none := by
  intro ks
  induction ks with
  | nil => rfl
  | cons k0 ks ih =>
      rw [restrictKeys]
      cases hk0 : dictGet d k0 with
      | none => exact ih
      | some v =>
          rw [dictGet_cons, if_neg, ih]
          intro heq
          rw [heq] at hk0
          rw [hk0] at h
          exact Option.noConfusion h

theorem restrictKeys_get (d : List (String × SearchServer)) (k : String) :
    ∀ ks, dictGet (restrictKeys d ks) k = if k ∈ ks then dictGet d k else none := by
  intro ks
  induction ks with
  | nil => simp [restrictKeys, dictGet]
  | cons k0 ks ih =>
      by_cases hk : k0 = k
      · subst hk
        rw [if_pos (List.mem_cons_self k0 ks), restrictKeys]
        cases hk0 : dictGet d k0 with
        | none => rw [restrictKeys_get_of_none d k0 hk0 ks]
        | some v => rw [dictGet_cons, if_pos rfl]
      · have hm : (k ∈ k0 :: ks) ↔ (k ∈ ks) := by
          rw [List.mem_cons]
          exact or_iff_right (fun h => hk h.symm)
        rw [restrictKeys]
        cases hk0 : dictGet d k0 with
        | none =>
            rw [ih]
            by_cases hmem : k ∈ ks
            · rw [if_pos hmem, if_pos (hm.mpr hmem)]
            · rw [if_neg hmem, if_neg (fun hc => hmem (hm.mp hc))]
        | some v =>
            rw [dictGet_cons, if_neg hk, ih]
            by_cases hmem : k ∈ ks
            · rw [if_pos hmem, if_pos (hm.mpr hmem)]
            · rw [if_neg hmem, if_neg (fun hc => hmem (hm.mp hc))]

theorem restrictKeys_keys_sublist (d : List (String × SearchServer)) :
    ∀ ks, ((restrictKeys d ks).map Prod.fst).Sublist ks := by
  intro ks
  induction ks with
  | nil => exact List.Sublist.refl []
  | cons k0 ks ih =>
      rw [restrictKeys]
      cases hk0 : dictGet d k0 with
      | none => exact ih.cons k0
      | some v => exact ih.cons₂ k0

theorem restrictKeys_append (d : List (String × SearchServer)) (ks1 ks2 : List String) :
    restrictKeys d (ks1 ++ ks2) = restrictKeys d ks1 ++ restrictKeys d ks2 := by
  induction ks1 with
  | nil => rfl
  | cons k0 ks ih =>
      rw [List.cons_append, restrictKeys, restrictKeys]
      cases hk0 : dictGet d k0 with
      | none => exact ih
      | some v => rw [ih]; rfl

/-- The node-loading loop of `load_from_config`, on the dump of an
existing node list: it re-adds the nodes unchanged, and the rebuilt server
map is the restriction of `servers_dict` to the first-occurrence
de-duplicated server names of the processed nodes. -/
theorem loadNodes_spec (sd : List (String × SearchServer))
    (hsdname : ∀ p ∈ sd, SearchServer.name p.2 = p.1) :
    ∀ (todo nodes0 : List SearchNode) (ks : List String),
      (∀ n ∈ todo, (dictGet sd n.server_name).isSome = true) →
      (∀ n ∈ todo, n.name = "" → n.server_name = "") →
      ((nodes0 ++ todo).map (fun n => n.name)).Nodup →
      ks.Nodup →
      loadNodes sd ⟨restrictKeys sd ks, nodes0⟩ (todo.map SearchNode.model_dump)
        = .ok ⟨restrictKeys sd (dedupFirstAux ks (todo.map (fun n => n.server_name))),
               nodes0 ++ todo⟩ := by
  intro todo
  induction todo with
  | nil =>
      intro nodes0 ks _ _ _ _
      simp [loadNodes, dedupFirstAux]
  | cons n rest ih =>
      intro nodes0 ks hsv hempty hnodup hksnodup
      have hsome := hsv n (List.mem_cons_self n rest)
      cases hget : dictGet sd n.server_name with
      | none => rw [hget] at hsome; exact Bool.noConfusion hsome
      | some sv =>
          have hsvname : SearchServer.name sv = n.server_name :=
            hsdname (n.server_name, sv) (dictGet_mem sd n.server_name sv hget)
          have hname : (if n.name = "" then SearchServer.name sv else n.name) = n.name := by
            by_cases he : n.name = ""
            · rw [if_pos he, hsvname, hempty n (List.mem_cons_self n rest) he, he]
            · rw [if_neg he]
          have hnotmem : n.name ∉ nodes0.map (fun m => m.name) := by
            rw [List.map_append] at hnodup
            rcases List.nodup_append.mp hnodup with ⟨-, -, hdisj⟩
            intro hmem
            exact hdisj hmem (by simp)
          have hany : (nodes0.any fun m => decide (m.name = n.name)) = false := by
            rw [List.any_eq_false]
            intro m hm hdec
            rw [decide_eq_true_eq] at hdec
            exact hnotmem (hdec ▸ List.mem_map_of_mem (fun m => m.name) hm)
          have hnodeeta : (⟨n.name, SearchServer.name sv, n.topk, n.from_nodes⟩
              : SearchNode) = n := by rw [hsvname]
          have hrestnodup : ((restrictKeys sd ks).map Prod.fst).Nodup :=
            (restrictKeys_keys_sublist sd ks).nodup hksnodup
          have hnodup2 : (((nodes0 ++ [n]) ++ rest).map (fun m => m.name)).Nodup := by
            rw [List.append_assoc, List.singleton_append]
            exact hnodup
          have hsv2 : ∀ m ∈ rest, (dictGet sd m.server_name).isSome = true :=
            fun m hm => hsv m (List.mem_cons_of_mem n hm)
          have hempty2 : ∀ m ∈ rest, m.name = "" → m.server_name = "" :=
            fun m hm => hempty m (List.mem_cons_of_mem n hm)
          by_cases hin : n.server_name ∈ ks
          · have hrget : dictGet (restrictKeys sd ks) (SearchServer.name sv) = some sv := by
              rw [hsvname, restrictKeys_get, if_pos hin, hget]
            have hclash : (match dictGet (restrictKeys sd ks) (SearchServer.name sv) with
                | some existing => decide (existing.id ≠ sv.id)
                | none => false) = false := by
              rw [hrget]
              simp
            have hset : dictSet (restrictKeys sd ks) (SearchServer.name sv) sv
                = restrictKeys sd ks := dictSet_self _ _ _ hrget hrestnodup
            have hadd : Workflow.add ⟨restrictKeys sd ks, nodes0⟩ sv n.name
                n.from_nodes n.topk = .ok ⟨restrictKeys sd ks, nodes0 ++ [n]⟩ := by
              simp only [Workflow.add, hclash, hname, hany, hset, hnodeeta,
                Bool.false_eq_true, if_neg, reduceIte]
            rw [List.map_cons, loadNodes]
            show (match dictGet sd n.server_name with
              | none => (Except.error ("KeyError: " ++ n.server_name) :
                  Except String Workflow)
              | some server =>
                  match Workflow.add ⟨restrictKeys sd ks, nodes0⟩ server n.name
                      n.from_nodes n.topk with
                  | .error (e, _) => .error e
                  | .ok wf2 => loadNodes sd wf2 (rest.map SearchNode.model_dump))
              = _
            rw [hget]
            show (match Workflow.add ⟨restrictKeys sd ks, nodes0⟩ sv n.name
                n.from_nodes n.topk with
              | .error (e, _) => (.error e : Except String Workflow)
              | .ok wf2 => loadNodes sd wf2 (rest.map SearchNode.model_dump)) = _
            rw [hadd]
            show loadNodes sd ⟨restrictKeys sd ks, nodes0 ++ [n]⟩
                (rest.map SearchNode.model_dump) = _
            rw [ih (nodes0 ++ [n]) ks hsv2 hempty2 hnodup2 hksnodup]
            rw [List.append_assoc, List.singleton_append]
            show _ = Except.ok ⟨restrictKeys sd
                (dedupFirstAux ks (n.server_name :: rest.map (fun m => m.server_name))),
              nodes0 ++ n :: rest⟩
            rw [dedupFirstAux, if_pos hin]
          · have hrget : dictGet (restrictKeys sd ks) (SearchServer.name sv) = none := by
              rw [hsvname, restrictKeys_get, if_neg hin]
            have hclash : (match dictGet (restrictKeys sd ks) (SearchServer.name sv) with
                | some existing => decide (existing.id ≠ sv.id)
                | none => false) = false := by
              rw [hrget]
            have hset : dictSet (restrictKeys sd ks) (SearchServer.name sv) sv
                = restrictKeys sd (ks ++ [n.server_name]) := by
              rw [dictSet_of_none _ _ _ hrget, restrictKeys_append]
              rw [show restrictKeys sd [n.server_name]
                  = match dictGet sd n.server_name with
                    | none => []
                    | some v => [(n.server_name, v)] from rfl]
              rw [hget, hsvname]
            have hadd : Workflow.add ⟨restrictKeys sd ks, nodes0⟩ sv n.name
                n.from_nodes n.topk
                = .ok ⟨restrictKeys sd (ks ++ [n.server_name]), nodes0 ++ [n]⟩ := by
              simp only [Workflow.add, hclash, hname, hany, hset, hnodeeta,
                Bool.false_eq_true, if_neg, reduceIte]
            have hksnodup2 : (ks ++ [n.server_name]).Nodup := by
              rw [List.nodup_append]
              refine ⟨hksnodup, List.nodup_singleton _, ?_⟩
              intro a ha hb
              rw [List.mem_singleton] at hb
              subst hb
              exact hin ha
            rw [List.map_cons, loadNodes]
            show (match dictGet sd n.server_name with
              | none => (Except.error ("KeyError: " ++ n.server_name) :
                  Except String Workflow)
              | some server =>
                  match Workflow.add ⟨restrictKeys sd ks, nodes0⟩ server n.name
                      n.from_nodes n.topk with
                  | .error (e, _) => .error e
                  | .ok wf2 => loadNodes sd wf2 (rest.map SearchNode.model_dump))
              = _
            rw [hget]
            show (match Workflow.add ⟨restrictKeys sd ks, nodes0⟩ sv n.name
                n.from_nodes n.topk with
              | .error (e, _) => (.error e : Except String Workflow)
              | .ok wf2 => loadNodes sd wf2 (rest.map SearchNode.model_dump)) = _
            rw [hadd]
            show loadNodes sd ⟨restrictKeys sd (ks ++ [n.server_name]), nodes0 ++ [n]⟩
                (rest.map SearchNode.model_dump) = _
            rw [ih (nodes0 ++ [n]) (ks ++ [n.server_name]) hsv2 hempty2 hnodup2 hksnodup2]
            rw [List.append_assoc, List.singleton_append]
            show _ = Except.ok ⟨restrictKeys sd
                (dedupFirstAux ks (n.server_name :: rest.map (fun m => m.server_name))),
              nodes0 ++ n :: rest⟩
            rw [dedupFirstAux, if_neg hin]

theorem restrict_config (sd : List (String × SearchServer)) :
    ∀ (d : List (String × SearchServer)),
      (∀ k v, dictGet d k = some v →
        (dictGet sd k).map (fun sv => sv.config) = some v.config) →
      (d.map Prod.fst).Nodup →
      (restrictKeys sd (d.map Prod.fst)).map (fun p => p.2.config)
        = d.map (fun p => p.2.config) := by
  intro d
  induction d with
  | nil => intro _ _; rfl
  | cons p rest ih =>
      intro hconf hnodup
      rw [List.map_cons, List.nodup_cons] at hnodup
      have hp : dictGet (p :: rest) p.1 = some p.2 := by
        rw [show p :: rest = (p.1, p.2) :: rest from by rw [Prod.mk.eta], dictGet_cons,
          if_pos rfl]
      have hsd := hconf p.1 p.2 hp
      cases hsd0 : dictGet sd p.1 with
      | none => rw [hsd0] at hsd; exact Option.noConfusion hsd
      | some sv0 =>
          rw [hsd0] at hsd
          rw [Option.map_some'] at hsd
          have hsvc : sv0.config = p.2.config := Option.some.inj hsd
          have hconf2 : ∀ k v, dictGet rest k = some v →
              (dictGet sd k).map (fun sv => sv.config) = some v.config := by
            intro k v hkv
            have hkmem : k ∈ rest.map Prod.fst :=
              List.mem_map_of_mem Prod.fst (dictGet_mem rest k v hkv)
            have hk0 : p.1 ≠ k := fun he => hnodup.1 (he ▸ hkmem)
            apply hconf k v
            rw [show p :: rest = (p.1, p.2) :: rest from by rw [Prod.mk.eta], dictGet_cons,
              if_neg hk0]
            exact hkv
          rw [List.map_cons, restrictKeys, hsd0, List.map_cons, ih hconf2 hnodup.2,
            List.map_cons]
          rw [hsvc]

/-- The entry-forwarding variant's round-trip: loading the dump of a
well-formed workflow succeeds and dumps back to the same config. -/
theorem mss_roundtrip (reg : List String) (wf : Workflow)
    (h1 : ∀ p ∈ wf.servers, SearchServer.name p.2 = p.1)
    (h2 : ∀ p ∈ wf.servers, p.2.config.type ∈ reg)
    (h3 : ∀ n ∈ wf.nodes, (dictGet wf.servers n.server_name).isSome = true)
    (h4 : (wf.nodes.map (fun n => n.name)).Nodup)
    (h5 : ∀ n ∈ wf.nodes, n.name = "" → n.server_name = "")
    (h6 : wf.servers.map Prod.fst = dedupFirst (wf.nodes.map (fun n => n.server_name))) :
    ∃ wf2, Workflow.load_from_config reg wf.model_dump = .ok wf2
      ∧ wf2.model_dump = wf.model_dump := by
  have hnames : (wf.servers.map (fun p => p.2.config)).map (fun c => c.name)
      = wf.servers.map Prod.fst := by
    rw [List.map_map]
    exact List.map_congr_left h1
  have hkeysnodup : (wf.servers.map Prod.fst).Nodup := by
    rw [h6]
    exact framework.dedupFirstAux_nodup _ [] List.nodup_nil
  have htypes : ∀ c ∈ wf.servers.map (fun p => p.2.config), c.type ∈ reg := by
    intro c hc
    obtain ⟨p, hp, hpc⟩ := List.mem_map.mp hc
    exact hpc ▸ h2 p hp
  have hload := loadServers_spec reg (wf.servers.map (fun p => p.2.config)) 0 []
    htypes (by rw [List.map_nil, List.nil_append, hnames]; exact hkeysnodup)
  have hcdict : (wf.servers.map (fun p => p.2.config)).map (fun c => (c.name, c))
      = wf.servers.map (fun p => (p.1, p.2.config)) := by
    rw [List.map_map]
    apply List.map_congr_left
    intro p hp
    show (SearchServer.name p.2, p.2.config) = (p.1, p.2.config)
    rw [h1 p hp]
  have hconf : ∀ k, (dictGet (mkSd 0 (wf.servers.map (fun p => p.2.config))) k).map
      (fun sv => sv.config) = (dictGet wf.servers k).map (fun v => v.config) := by
    intro k
    rw [mkSd_get, hcdict, dictGet_map_value]
  have hsv : ∀ n ∈ wf.nodes,
      (dictGet (mkSd 0 (wf.servers.map (fun p => p.2.config))) n.server_name).isSome
        = true := by
    intro n hn
    have h3n := h3 n hn
    cases hws : dictGet wf.servers n.server_name with
    | none => rw [hws] at h3n; exact Bool.noConfusion h3n
    | some v =>
        have hcn := hconf n.server_name
        rw [hws, Option.map_some'] at hcn
        cases hsd : dictGet (mkSd 0 (wf.servers.map (fun p => p.2.config)))
            n.server_name with
        | none => rw [hsd] at hcn; exact Option.noConfusion hcn
        | some sv => rfl
  have hnodes := loadNodes_spec (mkSd 0 (wf.servers.map (fun p => p.2.config)))
    (fun p hp => mkSd_name _ 0 p hp) wf.nodes [] [] hsv h5
    (by rw [List.nil_append]; exact h4) List.nodup_nil
  refine ⟨⟨restrictKeys (mkSd 0 (wf.servers.map (fun p => p.2.config)))
      (dedupFirst (wf.nodes.map (fun n => n.server_name))), wf.nodes⟩, ?_, ?_⟩
  · rw [Workflow.load_from_config]
    show (match loadServers reg 0 [] (wf.servers.map (fun p => p.2.model_dump)) with
      | .error e => (.error e : Except String Workflow)
      | .ok servers_dict =>
          loadNodes servers_dict Workflow.init (wf.nodes.map SearchNode.model_dump)) = _
    rw [show wf.servers.map (fun p => p.2.model_dump)
        = wf.servers.map (fun p => p.2.config) from rfl]
    rw [hload]
    show loadNodes (mkSd 0 (wf.servers.map (fun p => p.2.config)))
        ⟨restrictKeys (mkSd 0 (wf.servers.map (fun p => p.2.config))) [], []⟩
        (wf.nodes.map SearchNode.model_dump) = _
    rw [hnodes]
    rfl
  · have hconf2 : ∀ k v, dictGet wf.servers k = some v →
        (dictGet (mkSd 0 (wf.servers.map (fun p => p.2.config))) k).map
          (fun sv => sv.config) = some v.config := by
      intro k v hkv
      rw [hconf k, hkv, Option.map_some']
    have hrc := restrict_config (mkSd 0 (wf.servers.map (fun p => p.2.config)))
      wf.servers hconf2 hkeysnodup
    rw [Workflow.model_dump, Workflow.model_dump]
    show (⟨(restrictKeys (mkSd 0 (wf.servers.map (fun p => p.2.config)))
        (dedupFirst (wf.nodes.map (fun n => n.server_name)))).map (fun p => p.2.config),
        wf.nodes.map SearchNode.model_dump⟩ : WorkflowConfig)
      = ⟨wf.servers.map (fun p => p.2.config), wf.nodes.map SearchNode.model_dump⟩
    rw [← h6, hrc]

end multi_stage_search

/-- C5: the serialization round-trip is a fixed point.  Doc-id variant:
for a workflow whose nodes all carry a back-end with a registered type,
`model_dump` succeeds, `load_from_config` of the dump succeeds, and the
reloaded workflow's `model_dump` equals the dump.  Entry-forwarding
variant: for a well-formed workflow (server-map keys are the back-end
names, types registered, every node's back-end present, node names
distinct, the empty node name only paired with an empty back-end name,
and server registration order = first-use order of the nodes),
`load_from_config (model_dump wf)` succeeds and the result's `model_dump`
equals `wf`'s. -/
theorem C5_theorem (reg : List String) (wf : framework.Workflow)
    (h : ∀ n ∈ wf.nodes, ∃ s, n.server = some s ∧ s.config.type ∈ reg)
    (regm : List String) (wfm : multi_stage_search.Workflow)
    (h1 : ∀ p ∈ wfm.servers, multi_stage_search.SearchServer.name p.2 = p.1)
    (h2 : ∀ p ∈ wfm.servers, p.2.config.type ∈ regm)
    (h3 : ∀ n ∈ wfm.nodes, (dictGet wfm.servers n.server_name).isSome = true)
    (h4 : (wfm.nodes.map (fun n => n.name)).Nodup)
    (h5 : ∀ n ∈ wfm.nodes, n.name = "" → n.server_name = "")
    (h6 : wfm.servers.map Prod.fst
            = dedupFirst (wfm.nodes.map (fun n => n.server_name))) :
    (∃ dump wf2, wf.model_dump = .ok dump
      ∧ framework.Workflow.load_from_config reg dump = .ok wf2
      ∧ wf2.model_dump = .ok dump)
    ∧ (∃ wfm2, multi_stage_search.Workflow.load_from_config regm wfm.model_dump
          = .ok wfm2
        ∧ wfm2.model_dump = wfm.model_dump) :=
  ⟨framework.workflow_roundtrip reg wf h,
   multi_stage_search.mss_roundtrip regm wfm h1 h2 h3 h4 h5 h6⟩

/-- C5 witness: the theorem applied at concrete inputs. -/
theorem C5_witness :
    (∀ n ∈ (framework.Workflow.mk
        [⟨"n", some ⟨⟨"t", "s", none⟩⟩, "q", 10, []⟩] [] []).nodes,
      ∃ s, n.server = some s ∧ framework.ServerConfig.type s.config ∈ ["t"])
    ∧ ((∃ dump wf2,
          (framework.Workflow.mk [⟨"n", some ⟨⟨"t", "s", none⟩⟩, "q", 10, []⟩] []
            []).model_dump = .ok dump
          ∧ framework.Workflow.load_from_config ["t"] dump = .ok wf2
          ∧ wf2.model_dump = .ok dump)
        ∧ (∃ wfm2, multi_stage_search.Workflow.load_from_config ["t"]
              (multi_stage_search.Workflow.mk
                [("s", ⟨0, ⟨"t", "s", none⟩⟩)] [⟨"n", "s", 10, []⟩]).model_dump
              = .ok wfm2
            ∧ wfm2.model_dump
                = (multi_stage_search.Workflow.mk
                    [("s", ⟨0, ⟨"t", "s", none⟩⟩)] [⟨"n", "s", 10, []⟩]).model_dump)) :=
  ⟨fun n hn => by
      rw [List.mem_singleton] at hn
      subst hn
      exact ⟨⟨⟨"t", "s", none⟩⟩, rfl, by decide⟩,
   C5_theorem ["t"] ⟨[⟨"n", some ⟨⟨"t", "s", none⟩⟩, "q", 10, []⟩], [], []⟩
     (fun n hn => by
       rw [List.mem_singleton] at hn
       subst hn
       exact ⟨⟨⟨"t", "s", none⟩⟩, rfl, by decide⟩)
     ["t"] ⟨[("s", ⟨0, ⟨"t", "s", none⟩⟩)], [⟨"n", "s", 10, []⟩]⟩
     (by decide) (by decide) (by decide) (by decide) (by decide) (by decide)⟩
